import Mathlib

/-!
Verification of the week/date reconciliation and progress-aggregation core of
the `sudoraciones-propias` workout tracker.

The Python source stores progress data as JSON dictionaries and works with
`YYYY-MM-DD` date strings, exercise-instance identifier strings of the form
`{muscleGroup}_{exerciseName}_{weekday}_week{N}`, and per-day completion maps.
This development gives a shallow embedding of that core:

* Python strings are modelled as `Str := List Char` (Lean's built-in `String`
  operations do not reduce in the kernel, so the needed primitives — split,
  substring search, replace, trim, integer parsing, decimal printing — are
  re-implemented structurally below, following the semantics of the Python
  operations used by the source: `str.split`, `in`, `str.replace`,
  `str.strip`, `int(...)`, f-string interpolation).
* Calendar dates are modelled by their proleptic-Gregorian ordinal day number
  (`datetime.date.toordinal` in Python): `datetime.timedelta` arithmetic is
  exactly integer arithmetic on ordinals, `date.weekday()` is
  `(ordinal + 6) % 7`, and `strftime('%Y-%m-%d')`/`strptime` form a bijection
  between valid dates and canonical strings.  Dictionary keys that are date
  strings in the source are therefore represented by ordinals; the
  `program_start_date` field, whose string parsing behaviour is itself under
  test, is kept as a real string.
* Python dictionaries are association lists with first-match lookup and
  insertion-order iteration (`alGet`/`alSet` below reproduce `d[k]`,
  `d.get(k, v)`, and `d[k] = v` including append-at-end on fresh keys).
* The float `percentage` values computed by the source are represented by the
  exact fraction type `Q` below.  Every comparison the source performs on a
  percentage (`>= 80`, equality against literals) is decided identically for
  IEEE doubles and exact rationals at the integer operand sizes that occur
  here, because `completed/total*100` is either exactly a threshold value or
  at distance at least `1/total` from it, far above double rounding error.
-/

set_option maxRecDepth 1000000

namespace Sudoraciones

/-- Python strings, modelled as lists of characters. -/
abbrev Str := List Char

/-- Coerce a Lean string literal to the `Str` model. -/
def chars (s : String) : Str := s.data

/-- Test whether `p` is a leading segment of `s` (helper for substring search
and `str.split`). -/
def isPre : Str → Str → Bool
  | [], _ => true
  | _ :: _, [] => false
  | p :: ps, c :: cs => p == c && isPre ps cs

/-- Python's `pat in s` substring test. -/
def containsSub : Str → Str → Bool
  | s, pat =>
    match s with
    | [] => isPre pat []
    | _ :: t => isPre pat s || containsSub t pat

/-- Worker for `splitOnL`; `fuel` bounds the recursion (one unit per consumed
character), `acc` is the chunk currently being built. -/
def splitGo (pat : Str) : Nat → Str → Str → List Str
  | 0, s, acc => [acc ++ s]
  | fuel + 1, s, acc =>
    if pat ≠ [] ∧ isPre pat s then acc :: splitGo pat fuel (s.drop pat.length) []
    else
      match s with
      | [] => [acc]
      | c :: rest => splitGo pat fuel rest (acc ++ [c])

/-- Python's `s.split(pat)` for a non-empty separator `pat`: left-to-right,
non-overlapping, keeping empty chunks. -/
def splitOnL (s pat : Str) : List Str := splitGo pat (s.length + 1) s []

/-- Python's `s.replace(pat, rep)` (all non-overlapping occurrences, left to
right). -/
def replaceL (s pat rep : Str) : Str := List.intercalate rep (splitOnL s pat)

/-- Python's `s.endswith(pat)`. -/
def endsWithL (s pat : Str) : Bool := isPre pat.reverse s.reverse

/-- ASCII decimal digit test (`str.isdigit` on the characters that occur in
this code base). -/
def isDigitC (c : Char) : Bool := '0' ≤ c && c ≤ '9'

/-- Whitespace test used by `str.strip()` for the inputs occurring here. -/
def isSpaceC (c : Char) : Bool := c == ' ' || c == '\t' || c == '\n' || c == '\r'

/-- Python's `s.strip()`. -/
def trimL (s : Str) : Str := ((s.dropWhile isSpaceC).reverse.dropWhile isSpaceC).reverse

/-- Numeric value of a decimal digit character. -/
def digitVal (c : Char) : Nat := c.toNat - 48

/-- Decimal value of a digit string (helper for `parseNatL`). -/
def natVal (s : Str) : Nat := s.foldl (fun a c => 10 * a + digitVal c) 0

/-- Python's `int(s)` restricted to the plain decimal numerals that occur in
this code base; any other input raises `ValueError`, modelled as `none`. -/
def parseNatL (s : Str) : Option Nat :=
  if s ≠ [] ∧ s.all isDigitC then some (natVal s) else none

/-- Decimal digits of `n`, most significant first; `fuel` bounds the division
chain (`fuel = n` always suffices). -/
def natDigitsF : Nat → Nat → List Nat
  | 0, n => [n]
  | fuel + 1, n => if n < 10 then [n] else natDigitsF fuel (n / 10) ++ [n % 10]

/-- Decimal digits of `n`, most significant first. -/
def natDigits (n : Nat) : List Nat := natDigitsF n n

/-- Character for a single decimal digit. -/
def digitCharOf (d : Nat) : Char := Char.ofNat (48 + d)

/-- Decimal rendering of a natural number, as produced by Python's `str(n)` /
f-string interpolation. -/
def natRepr (n : Nat) : Str := (natDigits n).map digitCharOf

/-- Exact nonnegative fraction, standing in for the Python float values
`completed / total * 100`; `den` is positive wherever the source divides. -/
structure Q where
  num : Nat
  den : Nat
deriving DecidableEq, Repr

/-- Integer percentage literal. -/
def qOf (n : Nat) : Q := ⟨n, 1⟩

/-- Comparison `a ≤ b` of fractions by cross-multiplication (agrees with the
source's float comparisons at the operand sizes occurring here). -/
def qLe (a b : Q) : Bool := a.num * b.den ≤ b.num * a.den

/-- Value equality of fractions by cross-multiplication. -/
def qEqv (a b : Q) : Prop := a.num * b.den = b.num * a.den

instance (a b : Q) : Decidable (qEqv a b) := by unfold qEqv; infer_instance

/-- Percentage `completed / total * 100` as computed in the guarded branches
`(completed / total * 100) if total > 0 else ...` of the source. -/
def pctOf (completed total : Nat) : Q := ⟨completed * 100, total⟩

/-! ### Gregorian calendar arithmetic

`toOrdinal` is `datetime.date.toordinal` (day 1 = 0001-01-01), `fromOrdinal`
its inverse, both for the proleptic Gregorian calendar used by `datetime`. -/

/-- Calendar date as year/month/day. -/
structure Civil where
  y : Nat
  m : Nat
  d : Nat
deriving DecidableEq, Repr

/-- Gregorian leap-year rule. -/
def isLeap (y : Nat) : Bool := y % 4 == 0 && (y % 100 != 0 || y % 400 == 0)

/-- Number of days in a month. -/
def daysInMonth (y m : Nat) : Nat :=
  if m = 2 then (if isLeap y then 29 else 28)
  else if m = 4 ∨ m = 6 ∨ m = 9 ∨ m = 11 then 30
  else 31

/-- Days in the months strictly before month `m` of a non-leap year. -/
def daysBeforeMonth (m : Nat) : Nat :=
  [0, 0, 31, 59, 90, 120, 151, 181, 212, 243, 273, 304, 334].getD m 0

/-- Python's `date(y, m, d).toordinal()`. -/
def toOrdinal (c : Civil) : Nat :=
  365 * (c.y - 1) + (c.y - 1) / 4 + (c.y - 1) / 400 + daysBeforeMonth c.m +
      (if 2 < c.m ∧ isLeap c.y then 1 else 0) + c.d - (c.y - 1) / 100

/-- Inverse of `toOrdinal` (Gregorian civil-from-days algorithm, shifted so
that day 0 of the internal count is 0000-03-01). -/
def fromOrdinal (n : Nat) : Civil :=
  let z := n + 305
  let era := z / 146097
  let doe := z % 146097
  let yoe := ((doe - doe / 1460) + doe / 36524 - doe / 146097) / 365
  let y0 := yoe + era * 400
  let doy := doe - (365 * yoe + yoe / 4 - yoe / 100)
  let mp := (5 * doy + 2) / 153
  let d := doy - (153 * mp + 2) / 5 + 1
  let m := if mp < 10 then mp + 3 else mp - 9
  if m ≤ 2 then ⟨y0 + 1, m, d⟩ else ⟨y0, m, d⟩

/-- Python's `date.weekday()` on an ordinal: 0 = Monday … 6 = Sunday. -/
def weekdayOf (n : Nat) : Nat := (n + 6) % 7

/-- Month bucket of a date, modelling the `date_str[:7]` (`YYYY-MM`) month
keys of the progress log. -/
def monthKey (n : Nat) : Nat := (fromOrdinal n).y * 100 + (fromOrdinal n).m

/-! ### Python dictionaries as association lists -/

/-- Python `d.get(k)` / `k in d`: first-match lookup. -/
def alGet {α β : Type} [DecidableEq α] : List (α × β) → α → Option β
  | [], _ => none
  | (k', v) :: t, k => if k = k' then some v else alGet t k

/-- Python `d.get(k, dflt)`. -/
def alGetD {α β : Type} [DecidableEq α] (m : List (α × β)) (k : α) (dflt : β) : β :=
  (alGet m k).getD dflt

/-- Python `k in d`. -/
def alHas {α β : Type} [DecidableEq α] (m : List (α × β)) (k : α) : Bool :=
  (alGet m k).isSome

/-- Python `d[k] = v`: update in place if the key exists, else append. -/
def alSet {α β : Type} [DecidableEq α] : List (α × β) → α → β → List (α × β)
  | [], k, v => [(k, v)]
  | (k', v') :: t, k, v => if k = k' then (k, v) :: t else (k', v') :: alSet t k v

/-- Python `list.remove(x)`: drop the first occurrence. -/
def removeFirst {α : Type} [DecidableEq α] : List α → α → List α
  | [], _ => []
  | a :: t, x => if a = x then t else a :: removeFirst t x

/-- Stable insertion, placing `x` after existing entries whose key is `≤` its
key (used to model Python's stable `list.sort(key=...)`). -/
def insSorted {α : Type} (key : α → Nat) (x : α) : List α → List α
  | [] => [x]
  | y :: t => if key y ≤ key x then y :: insSorted key x t else x :: y :: t

/-- Python's stable ascending `list.sort(key=...)`. -/
def sortByKey {α : Type} (key : α → Nat) (l : List α) : List α :=
  l.foldl (fun acc x => insSorted key x acc) []

/-- Mode of a list of numbers with the tie-breaking of
`collections.Counter(...).most_common(1)`: largest count wins, ties go to the
value first encountered. -/
def modeOf (l : List Nat) : Nat :=
  match l.eraseDups with
  | [] => 0
  | h :: t => t.foldl (fun best x => if l.count best < l.count x then x else best) h

/-! ### Data model

`Exercise`, `Config` and `ProgressData` mirror the entries of `config.json`
and `progress_data.json` consumed by `modules/base_trainer.py`.  Fields that
are purely presentational (descriptions, video URLs, label strings) are
omitted; `difficulty_level`, `sets` and `category` carry the source's
`.get(..., default)` defaults.  Date-string keys are ordinals (see the header
note); `program_start_date` is kept as a string because its parsing is under
test. -/

/-- One exercise definition from `config.json`. -/
structure Exercise where
  name : Str
  sets : Nat
  reps : Str
  difficulty_level : Nat
  category : Option Str
deriving DecidableEq, Repr

/-- Weekday-to-muscle-groups plan of one week (`weekly_schedule` entry). -/
abbrev WPlan := List (Str × List Str)

/-- The static configuration document. -/
structure Config where
  weekly_schedule : List (Str × WPlan)
  exercises : List (Str × List Exercise)
deriving DecidableEq, Repr

/-- One `calendar_mapping` entry: the dates (ordinals) of a program week. -/
structure WeekEntry where
  start_date : Nat
  end_date : Nat
  dates : List Nat
deriving DecidableEq, Repr

/-- A key of the `calendar_mapping` JSON object: `update_calendar_mapping`
stores Python `int` keys in memory, while a JSON save/load round trip turns
them into their decimal strings. -/
inductive MapKey where
  | ofInt (n : Nat)
  | ofStr (s : Str)
deriving DecidableEq, Repr

/-- The mutable progress-log document (`progress_data.json`). -/
structure ProgressData where
  completed_exercises : List (Nat × List (Str × Bool))
  exercise_weeks : List (Nat × Nat)
  completed_workouts : List (Nat × List Nat)
  total_workouts : Nat
  program_start_date : Option Str
  calendar_mapping : List (MapKey × WeekEntry)
deriving DecidableEq, Repr

/-- The empty-default progress log created by `load_progress_data`. -/
def emptyPd : ProgressData := ⟨[], [], [], 0, none, []⟩

/-- JSON save/load round trip on the calendar mapping: object keys become
strings (values are unchanged). -/
def reloadKeys (m : List (MapKey × WeekEntry)) : List (MapKey × WeekEntry) :=
  m.map (fun kv =>
    (match kv.1 with
     | MapKey.ofInt n => MapKey.ofStr (natRepr n)
     | MapKey.ofStr s => MapKey.ofStr s, kv.2))

/-- The Spanish weekday keys, Monday first, as in the source's `day_names`. -/
def dayNames : List Str :=
  [chars "lunes", chars "martes", chars "miercoles", chars "jueves",
   chars "viernes", chars "sabado", chars "domingo"]

/-- `day_names[date_obj.weekday()]`: weekday key of a date. -/
def dayKeyOf (date : Nat) : Str := dayNames.getD (weekdayOf date) []

/-- Difficulty level of a program week: `(week_number - 1) // 4 + 1`
(`get_week_info(...)['level']` in `base_trainer.py`). -/
def weekLevel (w : Nat) : Nat := (w - 1) / 4 + 1

/-- The dictionary returned by `get_week_info` has keys `level`, `level_name`,
`level_description`, `week_in_cycle` and `total_weeks_completed` — notably no
`days` key — so `week_info.get('days', [])` in
`get_week_completion_stats_for_week` always yields the default `[]`. -/
def weekInfoDays (_w : Nat) : List Str := []

/-! ### Schedule generator (`training_plan.py`) -/

/-- The hardcoded level-4 plan of `intensify_schedule`'s `"advanced"` mode. -/
def advancedPlan : WPlan :=
  [(chars "lunes", [chars "pecho", chars "hombros", chars "abs"]),
   (chars "martes", [chars "espalda", chars "brazos", chars "cardio"]),
   (chars "miercoles", []),
   (chars "jueves", [chars "piernas", chars "gemelos", chars "abs"]),
   (chars "viernes", [chars "pecho", chars "espalda", chars "cardio"]),
   (chars "sabado", [chars "brazos", chars "hombros", chars "cardio"]),
   (chars "domingo", [])]

/-- Day transformation of `intensify_schedule`'s `"frequency"` mode. -/
def freqDay (day : Str) (mgs : List Str) : List Str :=
  if day = chars "martes" ∧ mgs = [] then [chars "hombros", chars "abs", chars "cardio"]
  else mgs

/-- Day transformation of `intensify_schedule`'s `"volume"` mode. -/
def volDay (day : Str) (mgs : List Str) : List Str :=
  if day = chars "martes" ∧ mgs = [] then [chars "hombros", chars "abs", chars "cardio"]
  else if mgs ≠ [] then
    if (day = chars "lunes" ∨ day = chars "sabado") ∧ ¬ (chars "cardio") ∈ mgs then
      mgs ++ [chars "cardio"]
    else if ¬ (chars "abs") ∈ mgs ∧ mgs.length < 3 then mgs ++ [chars "abs"]
    else mgs
  else mgs

/-- `TrainingPlanModule.intensify_schedule`: builds `new_schedule` by
assigning a transformed group list per base day; in `"advanced"` mode the
first iteration replaces the whole schedule and breaks out of the loop, so an
empty base schedule yields an empty result. -/
def intensifySchedule (base : WPlan) (mode : Str) : WPlan :=
  if mode = chars "frequency" then
    base.foldl (fun acc dm => alSet acc dm.1 (freqDay dm.1 dm.2)) []
  else if mode = chars "volume" then
    base.foldl (fun acc dm => alSet acc dm.1 (volDay dm.1 dm.2)) []
  else if mode = chars "advanced" then
    match base with
    | [] => []
    | _ :: _ => advancedPlan
  else []

/-- `TrainingPlanModule.generate_advanced_week`. -/
def generateAdvancedWeek (cfg : Config) (w : Nat) : WPlan :=
  let cycle := (w - 1) % 4 + 1
  let base := alGetD cfg.weekly_schedule (chars "semana" ++ natRepr cycle) []
  let level := (w - 1) / 4 + 1
  if level = 1 then base
  else if level = 2 then intensifySchedule base (chars "frequency")
  else if level = 3 then intensifySchedule base (chars "volume")
  else intensifySchedule base (chars "advanced")

/-- Week plan resolved for a week number: the literal `weekly_schedule` entry
for weeks 1–4 (missing entry ⇒ empty plan ⇒ every day rests), else
`generate_advanced_week`. -/
def resolvedPlan (cfg : Config) (w : Nat) : WPlan :=
  if w ≤ 4 then alGetD cfg.weekly_schedule (chars "semana" ++ natRepr w) []
  else generateAdvancedWeek cfg w

/-! ### Exercise selection (`base_trainer.py`) -/

/-- `BaseTrainer._filter_exercises_by_level`. -/
def filterByLevel (exs : List Exercise) (lvl : Nat) : List Exercise :=
  exs.filter (fun e => e.difficulty_level ≤ lvl)

/-- `BaseTrainer._choose_forearm_exercise_by_level`: stable sort by
difficulty, then deterministic rotation by week and weekday index. -/
def chooseForearmByLevel (day : Str) (w : Nat) (fes : List Exercise) : Option Exercise :=
  match fes with
  | [] => none
  | _ :: _ =>
    let sorted := sortByKey (fun e => e.difficulty_level) fes
    let dayIdx := if dayNames.contains day then dayNames.indexOf day else 0
    sorted[((w - 1) * 7 + dayIdx) % sorted.length]?

/-- `BaseTrainer.get_planned_exercises_for_group`. -/
def getPlannedExercisesForGroup (cfg : Config) (mg day : Str) (w : Nat) : List Exercise :=
  let allEx := alGetD cfg.exercises mg []
  let lvl := (w - 1) / 4 + 1
  let available := filterByLevel allEx lvl
  if mg = chars "brazos" then
    let nonForearm := available.filter (fun e => ¬ e.category = some (chars "forearm"))
    let forearmEx := available.filter (fun e => e.category = some (chars "forearm"))
    match chooseForearmByLevel day w forearmEx with
    | some c => nonForearm ++ [c]
    | none => nonForearm
  else if mg = chars "piernas" then available
  else available

/-- The exercise-instance identifier
`f"{muscle_group}_{exercise['name']}_{day_key}_week{week_number}"`. -/
def exId (mg name day : Str) (w : Nat) : Str :=
  mg ++ chars "_" ++ name ++ chars "_" ++ day ++ chars "_week" ++ natRepr w

/-! ### Completion ledger (`base_trainer.py`) -/

/-- `BaseTrainer.is_exercise_completed`: exact week-suffixed lookup, then the
bare legacy identifier (only if itself unsuffixed); other weeks' suffixed
variants are never consulted. -/
def isExerciseCompleted (pd : ProgressData) (date : Nat) (id : Str) (w : Nat) : Bool :=
  let dayMap := alGetD pd.completed_exercises date []
  let uniqueId := if containsSub id (chars "_week") then id
    else id ++ chars "_week" ++ natRepr w
  match alGet dayMap uniqueId with
  | some v => v
  | none =>
    let baseId := if containsSub id (chars "_week") then
        replaceL id (chars "_week" ++ natRepr w) []
      else id
    match alGet dayMap baseId with
    | some v => if containsSub baseId (chars "_week") then false else v
    | none => false

/-- Per-day completion statistics record.  The presentational `exercises` and
`muscle_groups` lists of the source dicts are omitted; `is_empty_day` exists
only in the `progress_calendar.py` variants and `calendar_week` is omitted. -/
structure DayStats where
  completed : Nat
  total : Nat
  percentage : Q
  is_rest_day : Bool
  is_empty_day : Bool
deriving DecidableEq, Repr

/-- The rest-day / missing-configuration result of
`get_day_completion_stats_internal` and
`TrainingPlanModule.get_day_completion_stats` (percentage 100). -/
def restStats100 : DayStats := ⟨0, 0, qOf 100, true, false⟩

/-- The rest-day result of the `progress_calendar.py` statistics functions
(percentage 0). -/
def restStats0 : DayStats := ⟨0, 0, qOf 0, true, false⟩

/-- Completion counting loop shared by `get_day_completion_stats_internal`
and `TrainingPlanModule.get_day_completion_stats`: iterate the scheduled
muscle groups present in the configuration and their planned exercises;
`dup = true` reproduces the doubled `completed_exercises += 1` increment of
the `base_trainer.py` variant. -/
def countDay (cfg : Config) (pd : ProgressData) (date : Nat) (mgs : List Str)
    (dayKey : Str) (w : Nat) (dup : Bool) : Nat × Nat :=
  mgs.foldl (fun acc mg =>
    if alHas cfg.exercises mg then
      (getPlannedExercisesForGroup cfg mg dayKey w).foldl (fun acc2 e =>
        let isC := isExerciseCompleted pd date (exId mg e.name dayKey w) w
        (acc2.1 + 1, acc2.2 + (if isC then (if dup then 2 else 1) else 0))) acc
    else acc) (0, 0)

/-- `BaseTrainer.get_day_completion_stats_internal` (the variant with the
doubled completed-count increment). -/
def dayStatsInternal (cfg : Config) (pd : ProgressData) (date : Nat) (w : Nat) : DayStats :=
  let plan := resolvedPlan cfg w
  if w ≤ 4 ∧ ¬ alHas cfg.weekly_schedule (chars "semana" ++ natRepr w) then restStats100
  else
    let dayKey := dayKeyOf date
    let mgs := alGetD plan dayKey []
    if mgs = [] then restStats100
    else
      let tc := countDay cfg pd date mgs dayKey w true
      let pct := if 0 < tc.1 then pctOf tc.2 tc.1 else qOf 100
      ⟨tc.2, tc.1, pct, false, false⟩

/-- `TrainingPlanModule.get_day_completion_stats` (single increment). -/
def tpDayStats (cfg : Config) (pd : ProgressData) (date : Nat) (w : Nat) : DayStats :=
  let plan := resolvedPlan cfg w
  if w ≤ 4 ∧ ¬ alHas cfg.weekly_schedule (chars "semana" ++ natRepr w) then restStats100
  else
    let dayKey := dayKeyOf date
    let mgs := alGetD plan dayKey []
    if mgs = [] then restStats100
    else
      let tc := countDay cfg pd date mgs dayKey w false
      let pct := if 0 < tc.1 then pctOf tc.2 tc.1 else qOf 100
      ⟨tc.2, tc.1, pct, false, false⟩

/-! ### Calendar mapping (`base_trainer.py`) -/

/-- Validity of a civil date as checked by `datetime`. -/
def validCivil (c : Civil) : Prop :=
  1 ≤ c.y ∧ c.y ≤ 9999 ∧ 1 ≤ c.m ∧ c.m ≤ 12 ∧ 1 ≤ c.d ∧ c.d ≤ daysInMonth c.y c.m

instance (c : Civil) : Decidable (validCivil c) := by unfold validCivil; infer_instance

/-- `datetime.strptime(s, '%Y-%m-%d')`: dash-separated year (exactly four
digits), month and day (one or two digits each), then calendar validation;
failure raises `ValueError`, modelled as `none`. -/
def parseDateYMD (s : Str) : Option Civil :=
  match splitOnL s (chars "-") with
  | [ys, ms, ds] =>
    if ys.length = 4 ∧ ys.all isDigitC ∧ 1 ≤ ms.length ∧ ms.length ≤ 2 ∧ ms.all isDigitC ∧
        1 ≤ ds.length ∧ ds.length ≤ 2 ∧ ds.all isDigitC then
      let c : Civil := ⟨natVal ys, natVal ms, natVal ds⟩
      if validCivil c then some c else none
    else none
  | _ => none

/-- `datetime.strptime(s, '%d/%m/%Y')` (display format). -/
def parseDateDMY (s : Str) : Option Civil :=
  match splitOnL s (chars "/") with
  | [ds, ms, ys] =>
    if ys.length = 4 ∧ ys.all isDigitC ∧ 1 ≤ ms.length ∧ ms.length ≤ 2 ∧ ms.all isDigitC ∧
        1 ≤ ds.length ∧ ds.length ≤ 2 ∧ ds.all isDigitC then
      let c : Civil := ⟨natVal ys, natVal ms, natVal ds⟩
      if validCivil c then some c else none
    else none
  | _ => none

/-- Zero-padded two-digit rendering (`strftime` `%m`/`%d`). -/
def pad2 (n : Nat) : Str := if n < 10 then chars "0" ++ natRepr n else natRepr n

/-- Zero-padded four-digit rendering (`strftime` `%Y`). -/
def pad4 (n : Nat) : Str :=
  if n < 10 then chars "000" ++ natRepr n
  else if n < 100 then chars "00" ++ natRepr n
  else if n < 1000 then chars "0" ++ natRepr n
  else natRepr n

/-- `strftime('%Y-%m-%d')`. -/
def formatCivil (c : Civil) : Str :=
  pad4 c.y ++ chars "-" ++ pad2 c.m ++ chars "-" ++ pad2 c.d

/-- The fresh 20-week mapping built by `update_calendar_mapping` from a start
ordinal: integer keys 1..20, each week starting at `start + 7*(w-1)` (the
exact configured date, deliberately not Monday-aligned). -/
def freshMapping (sd : Nat) : List (MapKey × WeekEntry) :=
  (List.range 20).map (fun i =>
    (MapKey.ofInt (i + 1),
     ⟨sd + 7 * i, sd + 7 * i + 6, (List.range 7).map (fun j => sd + 7 * i + j)⟩))

/-- `BaseTrainer.update_calendar_mapping`: no-op when the start date is
missing or unparseable (the exception is caught and the old mapping kept). -/
def updateCalendarMapping (pd : ProgressData) : ProgressData :=
  match pd.program_start_date with
  | none => pd
  | some s =>
    match parseDateYMD s with
    | none => pd
    | some c => { pd with calendar_mapping := freshMapping (toOrdinal c) }

/-- The today-based fallback week of `get_week_dates`. -/
def fallbackWeek (today : Nat) : WeekEntry :=
  let mon := today - weekdayOf today
  ⟨mon, mon + 6, (List.range 7).map (fun j => mon + j)⟩

/-- `BaseTrainer.get_week_dates`: looks the week up in the cached mapping
under its *string* key; on a miss (in particular for the freshly computed
integer-keyed in-memory mapping) recomputes dynamically from the start date
after realigning it to its Monday, and otherwise falls back to today's
week. -/
def getWeekDates (pd : ProgressData) (today : Nat) (w : Nat) : WeekEntry :=
  match alGet pd.calendar_mapping (MapKey.ofStr (natRepr w)) with
  | some e => e
  | none =>
    match pd.program_start_date with
    | some s =>
      match parseDateYMD s with
      | some c =>
        let sd0 := toOrdinal c
        let sd := sd0 - weekdayOf sd0
        let ws := sd + 7 * (w - 1)
        ⟨ws, ws + 6, (List.range 7).map (fun j => ws + j)⟩
      | none => fallbackWeek today
    | none => fallbackWeek today

/-- `BaseTrainer.set_program_start_date`: accepts `DD/MM/YYYY` (converted to
the internal `YYYY-MM-DD`) or `YYYY-MM-DD` (stored verbatim), recomputes the
calendar mapping and reports `True`; a `ValueError` from either parse leaves
the whole state unchanged and reports `False`. -/
def setProgramStartDate (s : Str) (pd : ProgressData) : Bool × ProgressData :=
  if containsSub s (chars "/") then
    match parseDateDMY s with
    | some c =>
      (true, updateCalendarMapping { pd with program_start_date := some (formatCivil c) })
    | none => (false, pd)
  else
    match parseDateYMD s with
    | some _ =>
      (true, updateCalendarMapping { pd with program_start_date := some s })
    | none => (false, pd)

/-- `BaseTrainer.get_calendar_week_for_date`: direct mapping hit first (the
key, possibly a string, is converted with `int(...)`; an unconvertible key
would raise, caught by the surrounding handler which returns the session
week), then floor-division from the Monday-aligned start date clamped to
1..20, then the session week. -/
def getCalendarWeekForDate (pd : ProgressData) (sessionWeek : Nat) (date : Nat) : Nat :=
  match pd.calendar_mapping.findSome? (fun kv =>
      if date ∈ kv.2.dates then some kv.1 else none) with
  | some (MapKey.ofInt n) => n
  | some (MapKey.ofStr s) => (parseNatL s).getD sessionWeek
  | none =>
    match pd.program_start_date with
    | some s =>
      match parseDateYMD s with
      | some c =>
        let sd0 := toOrdinal c
        let sd := sd0 - weekdayOf sd0
        let wk : Int := Int.fdiv ((date : Int) - (sd : Int)) 7 + 1
        if wk < 1 then 1 else if 20 < wk then 20 else wk.toNat
      | none => sessionWeek
    | none => sessionWeek

/-! ### Statistics of `progress_calendar.py` -/

/-- Expected exercise count of a planned-but-unlogged day (shared by the
`is_empty_day` branches of the `progress_calendar.py` statistics). -/
def expectedTotal (cfg : Config) (mgs : List Str) (dayKey : Str) (w : Nat) : Nat :=
  mgs.foldl (fun acc mg => acc + (getPlannedExercisesForGroup cfg mg dayKey w).length) 0

/-- `ProgressModule.get_day_completion_stats_filtered`. -/
def pcDayStatsFiltered (cfg : Config) (pd : ProgressData) (date : Nat)
    (filterWeek : Option Nat) (sessionWeek : Nat) : DayStats :=
  let w := filterWeek.getD sessionWeek
  let plan := resolvedPlan cfg w
  let dayKey := dayKeyOf date
  let mgs := alGetD plan dayKey []
  if mgs = [] then restStats0
  else
    let exData := alGetD pd.completed_exercises date []
    if exData = [] then
      ⟨0, expectedTotal cfg mgs dayKey w, qOf 0, false, true⟩
    else
      let filtered := exData.filter (fun kv => endsWithL kv.1 (chars "_week" ++ natRepr w))
      if filtered = [] then
        ⟨0, expectedTotal cfg mgs dayKey w, qOf 0, false, true⟩
      else
        let total := filtered.length
        let completed := (filtered.filter (fun kv => kv.2)).length
        ⟨completed, total, if 0 < total then pctOf completed total else qOf 0, false, false⟩

/-- `ProgressModule.get_day_completion_stats` (the variant the specification
calls `getDayCompletionStats` on the calendar page): week resolved through
the calendar mapping when not supplied; a planned rest day is returned
immediately — with percentage 0. -/
def pcDayStats (cfg : Config) (pd : ProgressData) (sessionWeek : Nat) (date : Nat)
    (weekNumber : Option Nat) : DayStats :=
  let w := match weekNumber with
    | some w => w
    | none => getCalendarWeekForDate pd sessionWeek date
  let plan := resolvedPlan cfg w
  let dayKey := dayKeyOf date
  let mgs := alGetD plan dayKey []
  if mgs = [] then restStats0
  else
    let exData := alGetD pd.completed_exercises date []
    let filtered := exData.filter (fun kv => endsWithL kv.1 (chars "_week" ++ natRepr w))
    if exData ≠ [] ∧ filtered ≠ [] then
      let total := filtered.length
      let completed := (filtered.filter (fun kv => kv.2)).length
      ⟨completed, total, if 0 < total then pctOf completed total else qOf 0, false, false⟩
    else
      ⟨0, expectedTotal cfg mgs dayKey w, qOf 0, false, true⟩

/-! ### Week resolution for a date -/

/-- `TrainingPlanModule.get_week_number_for_date`: the explicit
`exercise_weeks` assignment, else the most frequent `_week{N}` suffix among
the date's logged identifiers (memoized back into `exercise_weeks`), else the
session week.  Returns the resolved week together with the possibly updated
progress log. -/
def tpGetWeekNumberForDate (pd : ProgressData) (sessionWeek : Nat) (date : Nat) :
    Nat × ProgressData :=
  match alGet pd.exercise_weeks date with
  | some w => (w, pd)
  | none =>
    let ids := (alGetD pd.completed_exercises date []).map (fun kv => kv.1)
    if alHas pd.completed_exercises date ∧ ids ≠ [] then
      let weekNums := ids.filterMap (fun id =>
        if containsSub id (chars "_week") then
          parseNatL ((splitOnL id (chars "_week")).getLast?.getD [])
        else none)
      match weekNums with
      | [] => (sessionWeek, pd)
      | _ :: _ =>
        let m := modeOf weekNums
        (m, { pd with exercise_weeks := alSet pd.exercise_weeks date m })
    else (sessionWeek, pd)

/-- `ProgressModule.get_week_number_for_date`: explicit assignment; then the
≥50%-overlap heuristic over weeks 1..20 (the expected identifiers carry no
week suffix); then inference from the other dates of the same Monday–Sunday
calendar week (an explicit sibling assignment first, else the mode of the
digit prefixes following `_week` across the siblings' entries); finally the
session week.  Successful inferences are persisted into `exercise_weeks`. -/
def pcGetWeekNumberForDate (cfg : Config) (sessionWeek : Nat) (pd : ProgressData)
    (date : Nat) : Nat × ProgressData :=
  match alGet pd.exercise_weeks date with
  | some w => (w, pd)
  | none =>
    let ids := (alGetD pd.completed_exercises date []).map (fun kv => kv.1)
    let overlapHit : Option Nat :=
      if alHas pd.completed_exercises date ∧ ids ≠ [] then
        (List.range 20).findSome? (fun i =>
          let w := i + 1
          let plan := resolvedPlan cfg w
          let mgs := alGetD plan (dayKeyOf date) []
          let expected := (mgs.foldl (fun acc mg =>
            if alHas cfg.exercises mg then
              acc ++ (alGetD cfg.exercises mg []).map
                (fun e => mg ++ chars "_" ++ e.name ++ chars "_" ++ dayKeyOf date)
            else acc) []).eraseDups
          let reg := ids.eraseDups
          if expected ≠ [] ∧ reg.length ≤ 2 * (reg.filter (fun x => expected.contains x)).length
          then some w else none)
      else none
    match overlapHit with
    | some w => (w, { pd with exercise_weeks := alSet pd.exercise_weeks date w })
    | none =>
      let mon := date - weekdayOf date
      let weekDates := (List.range 7).map (fun i => mon + i)
      match weekDates.findSome? (fun d => alGet pd.exercise_weeks d) with
      | some w => (w, { pd with exercise_weeks := alSet pd.exercise_weeks date w })
      | none =>
        let weekNums := weekDates.foldl (fun acc d =>
          acc ++ (alGetD pd.completed_exercises d []).filterMap (fun kv =>
            if containsSub kv.1 (chars "_week") then
              let nstr := ((splitOnL kv.1 (chars "_week")).getLast?.getD []).takeWhile isDigitC
              if nstr ≠ [] then some (natVal nstr) else none
            else none)) []
        match weekNums with
        | [] => (sessionWeek, pd)
        | _ :: _ =>
          let m := modeOf weekNums
          (m, { pd with exercise_weeks := alSet pd.exercise_weeks date m })

/-! ### Completed-workouts index -/

/-- `BaseTrainer.update_completed_workouts`: for every date that has logged
exercises, recompute its (doubled) internal statistics under the week stored
in `exercise_weeks` (default 1) and add the date to — or remove it from — its
month's list according to `is_rest_day or percentage >= 80`. -/
def updateCompletedWorkoutsBase (cfg : Config) (pd : ProgressData) : ProgressData :=
  let cw := pd.completed_exercises.foldl (fun acc dm =>
    let date := dm.1
    let w := alGetD pd.exercise_weeks date 1
    let stats := dayStatsInternal cfg pd date w
    let isC := stats.is_rest_day || qLe (qOf 80) stats.percentage
    let mk := monthKey date
    let acc1 := if ¬ alHas acc mk then alSet acc mk [] else acc
    let lst := alGetD acc1 mk []
    if isC ∧ ¬ date ∈ lst then alSet acc1 mk (lst ++ [date])
    else if ¬ isC = true ∧ date ∈ lst then alSet acc1 mk (removeFirst lst date)
    else acc1) pd.completed_workouts
  { pd with completed_workouts := cw }

/-- `TrainingPlanModule.update_completed_workouts`: rebuilds the index from
scratch over every date with logged exercises plus the trailing 30 days,
resolving each date's week (with memoization side effects threaded through)
and using the single-increment day statistics.  The source iterates a Python
set in unspecified order; the embedding fixes the order (log keys first, then
the 30-day window, deduplicated), which does not affect membership. -/
def tpUpdateCompletedWorkouts (cfg : Config) (sessionWeek today : Nat)
    (pd : ProgressData) : ProgressData :=
  let allDates := (pd.completed_exercises.map (fun dm => dm.1) ++
    (List.range 30).map (fun i => today - i)).eraseDups
  let res := allDates.foldl (fun st date =>
    let r := tpGetWeekNumberForDate st.2.2 sessionWeek date
    let stats := tpDayStats cfg r.2 date r.1
    if stats.is_rest_day || qLe (qOf 80) stats.percentage then
      let mk := monthKey date
      let cw0 := if ¬ alHas st.1 mk then alSet st.1 mk [] else st.1
      let lst := alGetD cw0 mk []
      let cw1 := if date ∈ lst then cw0 else alSet cw0 mk (lst ++ [date])
      (cw1, st.2.1 + 1, r.2)
    else (st.1, st.2.1, r.2)) (([] : List (Nat × List Nat)), 0, pd)
  { res.2.2 with completed_workouts := res.1, total_workouts := res.2.1 }

/-- `BaseTrainer.mark_exercise_completed`: normalize the identifier to carry
a week suffix, write the completion flag, update the date's week assignment,
then recompute the completed-workouts index (the `base_trainer.py` variant;
`TrainingPlanModule` overrides that recompute, and neither variant touches
`completed_exercises`) and persist. -/
def markExerciseCompleted (cfg : Config) (pd : ProgressData) (date : Nat) (id : Str)
    (completed : Bool) (w : Nat) : ProgressData :=
  let ce0 := if ¬ alHas pd.completed_exercises date then
      alSet pd.completed_exercises date [] else pd.completed_exercises
  let uid := if containsSub id (chars "_week") then id
    else id ++ chars "_week" ++ natRepr w
  let ce1 := alSet ce0 date (alSet (alGetD ce0 date []) uid completed)
  let ew1 := if ¬ alHas pd.exercise_weeks date then
      alSet pd.exercise_weeks date w else pd.exercise_weeks
  let ew2 := if completed || ¬ alHas ew1 date then alSet ew1 date w else ew1
  updateCompletedWorkoutsBase cfg
    { pd with completed_exercises := ce1, exercise_weeks := ew2 }

/-! ### Week-level rollup and auto-detection (`base_trainer.py`) -/

/-- Result of `get_week_completion_stats_for_week`. -/
structure WeekStats where
  percentage : Q
  completed_days : Nat
  total_days : Nat
deriving DecidableEq, Repr

/-- `BaseTrainer.get_week_completion_stats_for_week`: walks the week's seven
dates, but counts a date only when its weekday key occurs in
`week_info.get('days', [])` — which is always the empty default (see
`weekInfoDays`), so both counters stay 0 and the percentage is always 0. -/
def getWeekCompletionStatsForWeek (cfg : Config) (pd : ProgressData) (today : Nat)
    (w : Nat) : WeekStats :=
  let wd := getWeekDates pd today w
  let tc := (wd.dates.zip dayNames).foldl (fun acc dd =>
    if dd.2 ∈ weekInfoDays w then
      let ds := dayStatsInternal cfg pd dd.1 w
      (acc.1 + 1, acc.2 + (if qLe (qOf 80) ds.percentage then 1 else 0))
    else acc) (0, 0)
  ⟨if 0 < tc.1 then pctOf tc.2 tc.1 else qOf 0, tc.2, tc.1⟩

/-- `BaseTrainer.get_auto_detected_week`: week 1 when no completion entries
exist; otherwise the highest week number parsed from the `_week{N}` suffixes
of completed entries, advanced to `min(N+1, 20)` when that week's rollup
percentage is at least 80. -/
def getAutoDetectedWeek (cfg : Config) (pd : ProgressData) (today : Nat) : Nat :=
  if pd.completed_exercises = [] then 1
  else
    let maxW := pd.completed_exercises.foldl (fun acc dm =>
      dm.2.foldl (fun acc2 kv =>
        if kv.2 && containsSub kv.1 (chars "_week") then
          match parseNatL ((splitOnL kv.1 (chars "_week")).getLast?.getD []) with
          | some n => max acc2 n
          | none => acc2
        else acc2) acc) 0
    if 0 < maxW then
      let ws := getWeekCompletionStatsForWeek cfg pd today maxW
      if qLe (qOf 80) ws.percentage then min (maxW + 1) 20 else maxW
    else 1

/-! ### Streak (`progress_calendar.py`) -/

/-- Loop body of `ProgressModule.calculate_current_streak`: `fuel` counts the
remaining iterations (starting at 60), `i` the day offset from today; the
progress log is threaded because week resolution may memoize. -/
def calcStreakGo (cfg : Config) (sessionWeek today : Nat) :
    Nat → Nat → Nat → ProgressData → Nat
  | 0, _, streak, _ => streak
  | fuel + 1, i, streak, pd =>
    let r := pcGetWeekNumberForDate cfg sessionWeek pd (today - i)
    let stats := pcDayStatsFiltered cfg r.2 (today - i) (some r.1) sessionWeek
    if stats.is_rest_day then calcStreakGo cfg sessionWeek today fuel (i + 1) streak r.2
    else if 0 < stats.total ∧ qLe (qOf 80) (pctOf stats.completed stats.total) then
      calcStreakGo cfg sessionWeek today fuel (i + 1) (streak + 1) r.2
    else if i = 0 then calcStreakGo cfg sessionWeek today fuel (i + 1) streak r.2
    else streak

/-- `ProgressModule.calculate_current_streak`: walk backward from today for
at most 60 days. -/
def calcStreak (cfg : Config) (sessionWeek today : Nat) (pd : ProgressData) : Nat :=
  calcStreakGo cfg sessionWeek today 60 0 0 pd

/-! ### Reps progression (`base_trainer.py`) -/

/-- `BaseTrainer.get_general_progression`: pass strings without digits or
with distance/time units through unchanged; otherwise parse a `min-max`
range or a single integer, each with an optional space-separated textual
suffix, add `(level-1)*2` to each bound and reattach the suffix; any parse
failure returns the original string (the source wraps the parse in
`try/except`). -/
def getGeneralProgression (level : Nat) (original : Str) : Str :=
  if ¬ original.any isDigitC then original
  else if containsSub original (chars "km") || containsSub original (chars "segundos") ||
      containsSub original (chars "min") then original
  else if containsSub original (chars "-") then
    let parts := splitOnL original (chars "-")
    match parseNatL (trimL (parts.getD 0 [])) with
    | none => original
    | some minReps =>
      let maxPart := trimL (parts.getD 1 [])
      let inc := (level - 1) * 2
      if containsSub maxPart (chars " ") then
        let pieces := splitOnL maxPart (chars " ")
        let suffix := chars " " ++ List.intercalate (chars " ") (pieces.drop 1)
        match parseNatL (pieces.getD 0 []) with
        | none => original
        | some maxReps =>
          natRepr (minReps + inc) ++ chars "-" ++ natRepr (maxReps + inc) ++ suffix
      else
        match parseNatL maxPart with
        | none => original
        | some maxReps => natRepr (minReps + inc) ++ chars "-" ++ natRepr (maxReps + inc)
  else
    let repsPart := trimL original
    let inc := (level - 1) * 2
    if containsSub repsPart (chars " ") then
      let pieces := splitOnL repsPart (chars " ")
      let suffix := chars " " ++ List.intercalate (chars " ") (pieces.drop 1)
      match parseNatL (pieces.getD 0 []) with
      | none => original
      | some reps => natRepr (reps + inc) ++ suffix
    else
      match parseNatL repsPart with
      | none => original
      | some reps => natRepr (reps + inc)

/-! ### Basic lemmas about the primitives -/

theorem natDigitsF_ne_nil (fuel n : Nat) : natDigitsF fuel n ≠ [] := by
  cases fuel with
  | zero => simp [natDigitsF]
  | succ f =>
    unfold natDigitsF
    by_cases h : n < 10 <;> simp [h]

theorem natDigitsF_lt (fuel : Nat) : ∀ n, n ≤ fuel → ∀ d ∈ natDigitsF fuel n, d < 10 := by
  induction fuel with
  | zero =>
    intro n hn d hd
    interval_cases n
    simp [natDigitsF] at hd
    omega
  | succ f ih =>
    intro n hn d hd
    unfold natDigitsF at hd
    by_cases h : n < 10
    · simp [h] at hd; omega
    · simp [h] at hd
      rcases hd with hd | hd
      · exact ih (n / 10) (by omega) d hd
      · omega

theorem natDigitsF_val (fuel : Nat) : ∀ n, n ≤ fuel → ∀ a,
    (natDigitsF fuel n).foldl (fun x d => 10 * x + d) a =
      a * 10 ^ (natDigitsF fuel n).length + n := by
  induction fuel with
  | zero =>
    intro n hn a
    interval_cases n
    simp [natDigitsF]
    ring
  | succ f ih =>
    intro n hn a
    unfold natDigitsF
    by_cases h : n < 10
    · simp [h]; ring
    · simp only [h, if_false, List.foldl_append, List.length_append, List.foldl_cons,
        List.foldl_nil, List.length_cons, List.length_nil]
      rw [ih (n / 10) (by omega)]
      have hmod := Nat.div_add_mod n 10
      ring_nf
      omega

theorem digitVal_digitCharOf {d : Nat} (h : d < 10) : digitVal (digitCharOf d) = d := by
  interval_cases d <;> decide

theorem isDigitC_digitCharOf {d : Nat} (h : d < 10) : isDigitC (digitCharOf d) = true := by
  interval_cases d <;> decide

theorem natVal_map_digitCharOf (l : List Nat) (hl : ∀ d ∈ l, d < 10) :
    natVal (l.map digitCharOf) = l.foldl (fun a d => 10 * a + d) 0 := by
  unfold natVal
  rw [List.foldl_map]
  induction l with
  | nil => rfl
  | cons h t ih =>
    simp only [List.foldl_cons]
    have hd : digitVal (digitCharOf h) = h := digitVal_digitCharOf (hl h (by simp))
    rw [hd]
    clear ih
    have key : ∀ (t : List Nat) (a : Nat), (∀ d ∈ t, d < 10) →
        t.foldl (fun x c => 10 * x + digitVal (digitCharOf c)) a =
          t.foldl (fun x d => 10 * x + d) a := by
      intro t
      induction t with
      | nil => intro a _; rfl
      | cons h2 t2 ih2 =>
        intro a ht
        simp only [List.foldl_cons]
        rw [digitVal_digitCharOf (ht h2 (by simp)), ih2 _ (fun d hd => ht d (by simp [hd]))]
    exact key t _ (fun d hd => hl d (by simp [hd]))

theorem parseNatL_natRepr (n : Nat) : parseNatL (natRepr n) = some n := by
  unfold parseNatL natRepr natDigits
  have hne : (natDigitsF n n).map digitCharOf ≠ [] := by
    intro h
    exact natDigitsF_ne_nil n n (List.map_eq_nil_iff.mp h)
  have hall : ((natDigitsF n n).map digitCharOf).all isDigitC = true := by
    rw [List.all_eq_true]
    intro c hc
    rcases List.mem_map.mp hc with ⟨d, hd, rfl⟩
    exact isDigitC_digitCharOf (natDigitsF_lt n n le_rfl d hd)
  rw [if_pos ⟨hne, hall⟩]
  rw [natVal_map_digitCharOf _ (natDigitsF_lt n n le_rfl)]
  rw [natDigitsF_val n n le_rfl 0]
  simp

theorem natRepr_injective : Function.Injective natRepr := by
  intro a b h
  have ha := parseNatL_natRepr a
  rw [h, parseNatL_natRepr b] at ha
  exact (Option.some_inj.mp ha).symm

theorem natRepr_ne_nil (n : Nat) : natRepr n ≠ [] := by
  unfold natRepr natDigits
  intro h
  exact natDigitsF_ne_nil n n (List.map_eq_nil_iff.mp h)

theorem mem_natRepr_isDigit (n : Nat) : ∀ c ∈ natRepr n, isDigitC c = true := by
  intro c hc
  rcases List.mem_map.mp hc with ⟨d, hd, rfl⟩
  exact isDigitC_digitCharOf (natDigitsF_lt n n le_rfl d hd)

theorem isPre_append_self (p y : Str) : isPre p (p ++ y) = true := by
  induction p with
  | nil => rfl
  | cons c t ih => simp [isPre, ih]

theorem containsSub_of_isPre (s pat : Str) (h : isPre pat s = true) :
    containsSub s pat = true := by
  cases s with
  | nil =>
    cases pat with
    | nil => rfl
    | cons a b => simp [isPre] at h
  | cons a t =>
    unfold containsSub
    simp [h]

theorem containsSub_append_mid (x pat y : Str) : containsSub (x ++ pat ++ y) pat = true := by
  induction x with
  | nil =>
    simp only [List.nil_append]
    exact containsSub_of_isPre _ _ (isPre_append_self pat y)
  | cons c t ih =>
    show containsSub (c :: (t ++ pat ++ y)) pat = true
    unfold containsSub
    show (isPre pat (c :: (t ++ pat ++ y)) || containsSub (t ++ pat ++ y) pat) = true
    rw [ih, Bool.or_true]

theorem containsSub_eq_false_of_head_notMem (s : Str) (c : Char) (p : Str)
    (h : ¬ c ∈ s) : containsSub s (c :: p) = false := by
  induction s with
  | nil => rfl
  | cons a t ih =>
    unfold containsSub
    have hca : (c == a) = false := by
      simp only [beq_eq_false_iff_ne, ne_eq]
      intro hh
      exact h (by simp [hh])
    simp only [isPre, hca, Bool.false_and, Bool.false_or]
    exact ih (fun hm => h (by simp [hm]))

theorem alGet_alSet {α β : Type} [DecidableEq α] (m : List (α × β)) (k k' : α) (v : β) :
    alGet (alSet m k v) k' = if k' = k then some v else alGet m k' := by
  induction m with
  | nil =>
    by_cases h : k' = k <;> simp [alSet, alGet, h]
  | cons kv t ih =>
    obtain ⟨k0, v0⟩ := kv
    simp only [alSet]
    by_cases hk : k = k0
    · subst hk
      rw [if_pos rfl]
      by_cases h : k' = k <;> simp [alGet, h]
    · rw [if_neg hk]
      by_cases h : k' = k0
      · subst h
        have hne : ¬ k' = k := fun hh => hk hh.symm
        simp [alGet, hne]
      · simp only [alGet, if_neg h, ih]

/-! ### Lemmas about the completion ledger -/

theorem ucwBase_completed_exercises (cfg : Config) (pd : ProgressData) :
    (updateCompletedWorkoutsBase cfg pd).completed_exercises = pd.completed_exercises := rfl

/-- After `mark_exercise_completed` with an already week-suffixed identifier,
the date's completion map is the old map with exactly that key written. -/
theorem mark_dayMap_of_suffixed (cfg : Config) (pd : ProgressData) (date : Nat)
    (id : Str) (c : Bool) (w : Nat) (h : containsSub id (chars "_week") = true) :
    alGetD (markExerciseCompleted cfg pd date id c w).completed_exercises date [] =
      alSet (alGetD pd.completed_exercises date []) id c := by
  unfold markExerciseCompleted
  rw [ucwBase_completed_exercises]
  simp only [h, if_true]
  by_cases hhas : alHas pd.completed_exercises date
  · rw [if_neg (by simp [hhas])]
    unfold alGetD
    rw [alGet_alSet, if_pos rfl]
    simp
  · rw [if_pos (by simp [hhas])]
    unfold alGetD
    rw [alGet_alSet, if_pos rfl]
    simp only [Option.getD_some]
    rw [alGet_alSet, if_pos rfl]
    unfold alHas at hhas
    cases hget : alGet pd.completed_exercises date with
    | none => simp
    | some v => rw [hget] at hhas; simp at hhas

/-- Unfolding of `is_exercise_completed` for identifiers that already carry a
week suffix. -/
theorem isExerciseCompleted_suffixed (pd : ProgressData) (date : Nat) (id : Str)
    (w : Nat) (h : containsSub id (chars "_week") = true) :
    isExerciseCompleted pd date id w =
      (match alGet (alGetD pd.completed_exercises date []) id with
       | some v => v
       | none =>
         match alGet (alGetD pd.completed_exercises date [])
             (replaceL id (chars "_week" ++ natRepr w) []) with
         | some v =>
           if containsSub (replaceL id (chars "_week" ++ natRepr w) []) (chars "_week")
           then false else v
         | none => false) := by
  unfold isExerciseCompleted
  simp only [h, if_true]

/-- C3: marking an exercise instance for week `N` cannot change the completion
lookup of the same base identifier under a different week suffix `M`.  The
lookup consults only the exact week-suffixed key and the bare legacy key
(itself required to be unsuffixed), never another week's variant. -/
theorem spec_C3_weekly_independence (cfg : Config) (pd : ProgressData) (date : Nat)
    (base : Str) (c : Bool) (N M : Nat) (hNM : N ≠ M) :
    isExerciseCompleted
        (markExerciseCompleted cfg pd date (base ++ chars "_week" ++ natRepr N) c N)
        date (base ++ chars "_week" ++ natRepr M) M =
      isExerciseCompleted pd date (base ++ chars "_week" ++ natRepr M) M := by
  set wk : Str := chars "_week" with hwk
  have hcontN : containsSub (base ++ wk ++ natRepr N) wk = true := containsSub_append_mid _ _ _
  have hcontM : containsSub (base ++ wk ++ natRepr M) wk = true := containsSub_append_mid _ _ _
  have hkey : (base ++ wk ++ natRepr M) ≠ (base ++ wk ++ natRepr N) := by
    intro h
    apply hNM
    apply natRepr_injective
    have h' : (base ++ wk) ++ natRepr N = (base ++ wk) ++ natRepr M := by
      simpa [List.append_assoc] using h.symm
    exact List.append_cancel_left h'
  rw [isExerciseCompleted_suffixed _ _ _ _ hcontM, isExerciseCompleted_suffixed _ _ _ _ hcontM]
  rw [mark_dayMap_of_suffixed _ _ _ _ _ _ hcontN]
  set dm := alGetD pd.completed_exercises date [] with hdm
  rw [alGet_alSet, if_neg hkey]
  set baseId := replaceL (base ++ wk ++ natRepr M) (wk ++ natRepr M) [] with hbid
  cases h1 : alGet dm (base ++ wk ++ natRepr M) with
  | some v => rfl
  | none =>
    by_cases hb : containsSub baseId wk = true
    · cases h2 : alGet (alSet dm (base ++ wk ++ natRepr N) c) baseId <;>
        cases h3 : alGet dm baseId <;> simp [hb]
    · have hbne : baseId ≠ base ++ wk ++ natRepr N := by
        intro h
        rw [h] at hb
        exact hb hcontN
      rw [alGet_alSet, if_neg hbne]

/-- Witness for C3: a concrete state in which `chest/press/monday` week 4 is
already completed; marking week 3 leaves the week-4 lookup at `true`. -/
theorem spec_C3_witness :
    (3 : Nat) ≠ 4 ∧
    isExerciseCompleted
        (markExerciseCompleted ⟨[], []⟩
          ⟨[(739172, [(chars "pecho_Press_lunes_week4", true)])], [], [], 0, none, []⟩
          739172 (chars "pecho_Press_lunes" ++ chars "_week" ++ natRepr 3) true 3)
        739172 (chars "pecho_Press_lunes" ++ chars "_week" ++ natRepr 4) 4 =
      isExerciseCompleted
        ⟨[(739172, [(chars "pecho_Press_lunes_week4", true)])], [], [], 0, none, []⟩
        739172 (chars "pecho_Press_lunes" ++ chars "_week" ++ natRepr 4) 4 ∧
    isExerciseCompleted
        ⟨[(739172, [(chars "pecho_Press_lunes_week4", true)])], [], [], 0, none, []⟩
        739172 (chars "pecho_Press_lunes" ++ chars "_week" ++ natRepr 4) 4 = true :=
  ⟨by decide,
   spec_C3_weekly_independence ⟨[], []⟩
     ⟨[(739172, [(chars "pecho_Press_lunes_week4", true)])], [], [], 0, none, []⟩
     739172 (chars "pecho_Press_lunes") true 3 4 (by decide),
   by decide⟩

/-! ### Shared concrete fixtures (real calendar dates) -/

/-- Ordinal of 2025-10-12, a Sunday. -/
def oct12 : Nat := toOrdinal ⟨2025, 10, 12⟩

/-- Ordinal of 2025-10-13, a Monday. -/
def oct13 : Nat := toOrdinal ⟨2025, 10, 13⟩

/-- Ordinal of 2025-10-14, a Tuesday. -/
def oct14 : Nat := toOrdinal ⟨2025, 10, 14⟩

/-- Ordinal of 2025-10-15, a Wednesday. -/
def oct15 : Nat := toOrdinal ⟨2025, 10, 15⟩

/-- A level-1 exercise definition used by the concrete scenarios. -/
def mkEx (n : String) : Exercise := ⟨chars n, 3, chars "10", 1, none⟩

/-! ### Claim C1: rest-day statistics -/

/-- C1 (amended): on a date whose resolved weekly plan schedules no muscle
groups, all three day-statistics variants report a rest day with zero counts;
the `training_plan.py`/`base_trainer.py` variants report percentage 100, but
the `progress_calendar.py` variant reports percentage 0. -/
theorem spec_C1_amended (cfg : Config) (pd : ProgressData) (sw date w : Nat)
    (h : alGetD (resolvedPlan cfg w) (dayKeyOf date) [] = []) :
    tpDayStats cfg pd date w = restStats100 ∧
    dayStatsInternal cfg pd date w = restStats100 ∧
    pcDayStats cfg pd sw date (some w) = restStats0 ∧
    pcDayStatsFiltered cfg pd date (some w) sw = restStats0 ∧
    qEqv restStats100.percentage (qOf 100) ∧ restStats100.completed = 0 ∧
    restStats100.total = 0 ∧ restStats100.is_rest_day = true ∧
    qEqv restStats0.percentage (qOf 0) ∧ restStats0.completed = 0 ∧
    restStats0.total = 0 ∧ restStats0.is_rest_day = true := by
  refine ⟨?_, ?_, ?_, ?_, by decide, by decide, by decide, by decide, by decide,
    by decide, by decide, by decide⟩
  · unfold tpDayStats
    by_cases h1 : w ≤ 4 ∧ ¬ alHas cfg.weekly_schedule (chars "semana" ++ natRepr w)
    · rw [if_pos h1]
    · rw [if_neg h1]
      simp [h]
  · unfold dayStatsInternal
    by_cases h1 : w ≤ 4 ∧ ¬ alHas cfg.weekly_schedule (chars "semana" ++ natRepr w)
    · rw [if_pos h1]
    · rw [if_neg h1]
      simp [h]
  · unfold pcDayStats
    simp [h]
  · unfold pcDayStatsFiltered
    simp [h]

/-- Configuration fixture for C1: week 1 schedules nothing on Monday. -/
def cfgC1 : Config := ⟨[(chars "semana1", [(chars "lunes", [])])], []⟩

/-- Counterexample for C1 as stated: on the rest Monday 2025-10-13, the
`progress_calendar.py` `get_day_completion_stats` returns
`is_rest_day = true` with `total = completed = 0` but percentage 0, not the
claimed 100. -/
theorem spec_C1_counterexample :
    alGetD (resolvedPlan cfgC1 1) (dayKeyOf oct13) [] = [] ∧
    (pcDayStats cfgC1 emptyPd 1 oct13 (some 1)).is_rest_day = true ∧
    (pcDayStats cfgC1 emptyPd 1 oct13 (some 1)).total = 0 ∧
    (pcDayStats cfgC1 emptyPd 1 oct13 (some 1)).completed = 0 ∧
    ¬ qEqv (pcDayStats cfgC1 emptyPd 1 oct13 (some 1)).percentage (qOf 100) := by
  decide

/-- Witness for C1's amended theorem at the concrete rest Monday. -/
theorem spec_C1_witness :
    alGetD (resolvedPlan cfgC1 1) (dayKeyOf oct13) [] = [] ∧
    tpDayStats cfgC1 emptyPd oct13 1 = restStats100 ∧
    pcDayStats cfgC1 emptyPd 1 oct13 (some 1) = restStats0 :=
  ⟨by decide, (spec_C1_amended cfgC1 emptyPd 1 oct13 1 (by decide)).1,
   (spec_C1_amended cfgC1 emptyPd 1 oct13 1 (by decide)).2.2.1⟩

/-! ### Claim C2: the 80% trained threshold -/

/-- Configuration fixture for C2: week 1 trains chest on Monday with exactly
five level-1 exercises. -/
def cfgC2 : Config :=
  ⟨[(chars "semana1", [(chars "lunes", [chars "pecho"])])],
   [(chars "pecho", [mkEx "E1", mkEx "E2", mkEx "E3", mkEx "E4", mkEx "E5"])]⟩

/-- Progress fixture for C2: on Monday 2025-10-13 exactly three of the five
scheduled week-1 exercises are marked complete. -/
def pdC2three : ProgressData :=
  ⟨[(oct13, [(exId (chars "pecho") (chars "E1") (chars "lunes") 1, true),
             (exId (chars "pecho") (chars "E2") (chars "lunes") 1, true),
             (exId (chars "pecho") (chars "E3") (chars "lunes") 1, true)])],
   [(oct13, 1)], [], 0, none, []⟩

/-- Progress fixture for C2: four of the five scheduled exercises complete. -/
def pdC2four : ProgressData :=
  ⟨[(oct13, [(exId (chars "pecho") (chars "E1") (chars "lunes") 1, true),
             (exId (chars "pecho") (chars "E2") (chars "lunes") 1, true),
             (exId (chars "pecho") (chars "E3") (chars "lunes") 1, true),
             (exId (chars "pecho") (chars "E4") (chars "lunes") 1, true)])],
   [(oct13, 1)], [], 0, none, []⟩

/-- C2 (code bug): with exactly 5 scheduled exercises and 3 marked complete,
`base_trainer.py`'s `get_day_completion_stats_internal` double-increments the
completed count (6 of 5, percentage 120), so
`BaseTrainer.update_completed_workouts` records the day as trained — against
the claim, the code's own ≥80% comment, and the sibling
`TrainingPlanModule` implementation, which computes 60% and does not record
the day.  With 4 of 5 complete the training-plan variant computes exactly 80%
and records the day, as the claim's boundary case states. -/
theorem spec_C2_threshold_bug :
    (dayStatsInternal cfgC2 pdC2three oct13 1).total = 5 ∧
    (dayStatsInternal cfgC2 pdC2three oct13 1).completed = 6 ∧
    qEqv (dayStatsInternal cfgC2 pdC2three oct13 1).percentage (qOf 120) ∧
    oct13 ∈ alGetD (updateCompletedWorkoutsBase cfgC2 pdC2three).completed_workouts
      (monthKey oct13) [] ∧
    (tpDayStats cfgC2 pdC2three oct13 1).total = 5 ∧
    (tpDayStats cfgC2 pdC2three oct13 1).completed = 3 ∧
    qEqv (tpDayStats cfgC2 pdC2three oct13 1).percentage (qOf 60) ∧
    ¬ oct13 ∈ alGetD (tpUpdateCompletedWorkouts cfgC2 1 oct13 pdC2three).completed_workouts
      (monthKey oct13) [] ∧
    qEqv (tpDayStats cfgC2 pdC2four oct13 1).percentage (qOf 80) ∧
    oct13 ∈ alGetD (tpUpdateCompletedWorkouts cfgC2 1 oct13 pdC2four).completed_workouts
      (monthKey oct13) [] ∧
    oct13 ∈ alGetD (updateCompletedWorkoutsBase cfgC2 pdC2four).completed_workouts
      (monthKey oct13) [] := by
  decide

/-! ### Claim C4: auto-detected current week -/

/-- Configuration fixture for C4: week 1 trains chest on Monday with one
level-1 exercise. -/
def cfgC4 : Config :=
  ⟨[(chars "semana1", [(chars "lunes", [chars "pecho"])])],
   [(chars "pecho", [mkEx "E1"])]⟩

/-- Progress fixture for C4: every week-1 prescribed exercise (the one
Monday exercise) is marked complete, so week 1 is 100% done. -/
def pdC4 : ProgressData :=
  ⟨[(oct13, [(exId (chars "pecho") (chars "E1") (chars "lunes") 1, true)])],
   [(oct13, 1)], [], 0, some (chars "2025-10-13"), []⟩

/-- C4 (code bug): with an empty log the auto-detected week is 1 as claimed;
but with week 1 fully completed (its single prescribed exercise done, the
day at 100%), `get_auto_detected_week` still returns 1 instead of the claimed
`min(1+1, 20) = 2`, because `get_week_completion_stats_for_week` reads the
nonexistent `days` key of `get_week_info`'s result, leaving its percentage at
0 so the ≥80% advance branch is unreachable. -/
theorem spec_C4_auto_advance_bug :
    getAutoDetectedWeek cfgC4 emptyPd oct13 = 1 ∧
    qEqv (tpDayStats cfgC4 pdC4 oct13 1).percentage (qOf 100) ∧
    qEqv (getWeekCompletionStatsForWeek cfgC4 pdC4 oct13 1).percentage (qOf 0) ∧
    (getWeekCompletionStatsForWeek cfgC4 pdC4 oct13 1).total_days = 0 ∧
    getAutoDetectedWeek cfgC4 pdC4 oct13 = 1 ∧
    getAutoDetectedWeek cfgC4 pdC4 oct13 ≠ 2 := by
  decide

/-! ### Claim C8: advanced-week generation -/

/-- At level ≥ 4 (week 13 and above) `generate_advanced_week` returns the
hardcoded advanced plan whenever the base cycle week's schedule is present
(non-empty), discarding the base entirely. -/
theorem genAdvancedWeek_eq_advancedPlan (cfg : Config) (w : Nat) (hw : 13 ≤ w)
    (hbase : alGetD cfg.weekly_schedule (chars "semana" ++ natRepr ((w - 1) % 4 + 1)) [] ≠ []) :
    generateAdvancedWeek cfg w = advancedPlan := by
  unfold generateAdvancedWeek
  have hq : 3 ≤ (w - 1) / 4 := (Nat.le_div_iff_mul_le (by omega)).mpr (by omega)
  rw [if_neg (by omega), if_neg (by omega), if_neg (by omega)]
  unfold intensifySchedule
  rw [if_neg (by decide), if_neg (by decide), if_pos rfl]
  cases hb : alGetD cfg.weekly_schedule (chars "semana" ++ natRepr ((w - 1) % 4 + 1)) [] with
  | nil => exact absurd hb hbase
  | cons a t => rfl

/-- C8: for every week at level ≥ 4, the generated plan is the single
hardcoded restructured plan — identical regardless of which base cycle week
the week number maps to — training six days and resting exactly on Wednesday
and Sunday. -/
theorem spec_C8_advanced_replacement (cfg : Config) (w : Nat) (hw : 13 ≤ w)
    (hbase : alGetD cfg.weekly_schedule (chars "semana" ++ natRepr ((w - 1) % 4 + 1)) [] ≠ []) :
    generateAdvancedWeek cfg w = advancedPlan ∧
    (advancedPlan.filter (fun p => p.2.isEmpty)).map Prod.fst =
      [chars "miercoles", chars "domingo"] ∧
    advancedPlan.length = 7 ∧
    (∀ w', 13 ≤ w' →
      alGetD cfg.weekly_schedule (chars "semana" ++ natRepr ((w' - 1) % 4 + 1)) [] ≠ [] →
      generateAdvancedWeek cfg w' = generateAdvancedWeek cfg w) := by
  refine ⟨genAdvancedWeek_eq_advancedPlan cfg w hw hbase, by decide, by decide, ?_⟩
  intro w' hw' hbase'
  rw [genAdvancedWeek_eq_advancedPlan cfg w' hw' hbase',
    genAdvancedWeek_eq_advancedPlan cfg w hw hbase]

/-- Witness for C8 at week 13 over the C2 fixture configuration (whose cycle
week 1 schedule is non-empty). -/
theorem spec_C8_witness :
    13 ≤ 13 ∧
    alGetD cfgC2.weekly_schedule (chars "semana" ++ natRepr ((13 - 1) % 4 + 1)) [] ≠ [] ∧
    generateAdvancedWeek cfgC2 13 = advancedPlan :=
  ⟨by decide, by decide,
   (spec_C8_advanced_replacement cfgC2 13 (by decide) (by decide)).1⟩

/-! ### Lemmas about splitting, trimming and digit strings -/

theorem splitGo_single_no (c : Char) (s acc : Str) (fuel : Nat)
    (hf : s.length < fuel) (hs : ¬ c ∈ s) : splitGo [c] fuel s acc = [acc ++ s] := by
  induction fuel generalizing s acc with
  | zero => omega
  | succ f ih =>
    unfold splitGo
    cases s with
    | nil =>
      rw [if_neg (by simp [isPre])]
      simp
    | cons a t =>
      have hca : (c == a) = false := by
        simp only [beq_eq_false_iff_ne, ne_eq]
        intro hh
        exact hs (by simp [hh])
      rw [if_neg (by simp [isPre, hca])]
      simp only []
      rw [ih t (acc ++ [a]) (by simpa using Nat.lt_of_succ_lt_succ hf)
        (fun hm => hs (by simp [hm]))]
      simp

theorem splitGo_single_pair (c : Char) (A B acc : Str) (fuel : Nat)
    (hf : A.length + B.length + 1 < fuel) (hA : ¬ c ∈ A) (hB : ¬ c ∈ B) :
    splitGo [c] fuel (A ++ c :: B) acc = [acc ++ A, B] := by
  induction A generalizing acc fuel with
  | nil =>
    cases fuel with
    | zero => omega
    | succ f =>
      unfold splitGo
      rw [if_pos (by simp [isPre])]
      simp only [List.nil_append, List.length_cons, List.length_nil, List.drop_succ_cons,
        List.drop_zero]
      rw [splitGo_single_no c B [] f (by simp at hf; omega) hB]
      simp
  | cons a A' ih =>
    cases fuel with
    | zero => omega
    | succ f =>
      unfold splitGo
      have hca : (c == a) = false := by
        simp only [beq_eq_false_iff_ne, ne_eq]
        intro hh
        exact hA (by simp [hh])
      rw [if_neg (by simp [isPre, hca])]
      simp only [List.cons_append]
      rw [ih (acc ++ [a]) f (by simp at hf; omega) (fun hm => hA (by simp [hm]))]
      simp

theorem splitGo_single_triple (c : Char) (A B C acc : Str) (fuel : Nat)
    (hf : A.length + B.length + C.length + 2 < fuel)
    (hA : ¬ c ∈ A) (hB : ¬ c ∈ B) (hC : ¬ c ∈ C) :
    splitGo [c] fuel (A ++ c :: (B ++ c :: C)) acc = [acc ++ A, B, C] := by
  induction A generalizing acc fuel with
  | nil =>
    cases fuel with
    | zero => omega
    | succ f =>
      unfold splitGo
      rw [if_pos (by simp [isPre])]
      simp only [List.nil_append, List.length_cons, List.length_nil, List.drop_succ_cons,
        List.drop_zero]
      rw [splitGo_single_pair c B C [] f (by simp at hf; omega) hB hC]
      simp
  | cons a A' ih =>
    cases fuel with
    | zero => omega
    | succ f =>
      unfold splitGo
      have hca : (c == a) = false := by
        simp only [beq_eq_false_iff_ne, ne_eq]
        intro hh
        exact hA (by simp [hh])
      rw [if_neg (by simp [isPre, hca])]
      simp only [List.cons_append]
      rw [ih (acc ++ [a]) f (by simp at hf; omega) (fun hm => hA (by simp [hm]))]
      simp

theorem splitOnL_single_pair (c : Char) (A B : Str) (hA : ¬ c ∈ A) (hB : ¬ c ∈ B) :
    splitOnL (A ++ c :: B) [c] = [A, B] := by
  unfold splitOnL
  rw [splitGo_single_pair c A B [] _ (by simp) hA hB]
  simp

theorem splitOnL_single_triple (c : Char) (A B C : Str)
    (hA : ¬ c ∈ A) (hB : ¬ c ∈ B) (hC : ¬ c ∈ C) :
    splitOnL (A ++ c :: (B ++ c :: C)) [c] = [A, B, C] := by
  unfold splitOnL
  rw [splitGo_single_triple c A B C [] _ (by simp; omega) hA hB hC]
  simp

theorem dropWhile_eq_self_of_false {p : Char → Bool} {s : Str}
    (h : ∀ c ∈ s, p c = false) : s.dropWhile p = s := by
  cases s with
  | nil => rfl
  | cons a t => simp [List.dropWhile_cons, h a (by simp)]

theorem trimL_eq_self {s : Str} (h : ∀ c ∈ s, isSpaceC c = false) : trimL s = s := by
  unfold trimL
  rw [dropWhile_eq_self_of_false h,
    dropWhile_eq_self_of_false (fun c hc => h c (List.mem_reverse.mp hc)),
    List.reverse_reverse]

theorem notMem_natRepr_of_not_digit (n : Nat) (c : Char) (h : isDigitC c = false) :
    ¬ c ∈ natRepr n := by
  intro hm
  rw [mem_natRepr_isDigit n c hm] at h
  simp at h

theorem any_isDigit_natRepr (n : Nat) : (natRepr n).any isDigitC = true := by
  cases hrep : natRepr n with
  | nil => exact absurd hrep (natRepr_ne_nil n)
  | cons a t =>
    have ha : isDigitC a = true := mem_natRepr_isDigit n a (by rw [hrep]; simp)
    simp [ha]

theorem isSpaceC_of_digit {c : Char} (h : isDigitC c = true) : isSpaceC c = false := by
  have h1 : c ≠ ' ' := by rintro rfl; exact absurd h (by decide)
  have h2 : c ≠ '\t' := by rintro rfl; exact absurd h (by decide)
  have h3 : c ≠ '\n' := by rintro rfl; exact absurd h (by decide)
  have h4 : c ≠ '\r' := by rintro rfl; exact absurd h (by decide)
  simp [isSpaceC, h1, h2, h3, h4]

theorem trimL_natRepr (n : Nat) : trimL (natRepr n) = natRepr n :=
  trimL_eq_self (fun c hc => isSpaceC_of_digit (mem_natRepr_isDigit n c hc))

theorem notMem_dash_natRepr (n : Nat) : ¬ '-' ∈ natRepr n :=
  notMem_natRepr_of_not_digit n '-' (by decide)

theorem containsSub_natRepr_false (n : Nat) (c : Char) (p : Str) (h : isDigitC c = false) :
    containsSub (natRepr n) (c :: p) = false :=
  containsSub_eq_false_of_head_notMem _ _ _ (notMem_natRepr_of_not_digit n c h)

/-! ### Claim C6: general reps progression -/

/-- C6: the displayed reps string passes through unchanged when it has no
digits or carries a distance/time unit; a well-formed `min-max` range gains
`(level-1)*2` on each bound; a well-formed single number gains the same
increment; inputs the parser cannot handle come back unmodified (the
embedding is total, mirroring the source's catch-all `except`).  The
concrete scenario: base `8-10` displays `8-10` at level 1 and `12-14` at
level 3. -/
theorem spec_C6_reps_progression (level : Nat) :
    (∀ s, s.any isDigitC = false → getGeneralProgression level s = s) ∧
    (∀ a b, getGeneralProgression level (natRepr a ++ chars "-" ++ natRepr b) =
      natRepr (a + (level - 1) * 2) ++ chars "-" ++ natRepr (b + (level - 1) * 2)) ∧
    (∀ a, getGeneralProgression level (natRepr a) = natRepr (a + (level - 1) * 2)) ∧
    getGeneralProgression level (chars "20km") = chars "20km" ∧
    getGeneralProgression level (chars "30-60 segundos") = chars "30-60 segundos" ∧
    getGeneralProgression level (chars "30 min") = chars "30 min" ∧
    getGeneralProgression level (chars "8-x") = chars "8-x" ∧
    getGeneralProgression 1 (chars "8-10") = chars "8-10" ∧
    getGeneralProgression 3 (chars "8-10") = chars "12-14" ∧
    getGeneralProgression 2 (chars "8-10 por pierna") = chars "10-12 por pierna" := by
  refine ⟨?_, ?_, ?_, by rfl, by rfl, by rfl, by rfl, by decide, by decide, by decide⟩
  · intro s hs
    unfold getGeneralProgression
    rw [if_pos (by simp [hs])]
  · intro a b
    have hany : ((natRepr a ++ chars "-" ++ natRepr b).any isDigitC) = true := by
      simp [List.any_append, any_isDigit_natRepr]
    have hnm : ∀ c : Char, isDigitC c = false → c ≠ '-' →
        ¬ c ∈ natRepr a ++ chars "-" ++ natRepr b := by
      intro c hc hd hm
      simp only [List.append_assoc, List.mem_append] at hm
      rcases hm with hm | hm | hm
      · exact notMem_natRepr_of_not_digit a c hc hm
      · exact hd (by simpa [chars] using hm)
      · exact notMem_natRepr_of_not_digit b c hc hm
    have hkm : containsSub (natRepr a ++ chars "-" ++ natRepr b) (chars "km") = false :=
      containsSub_eq_false_of_head_notMem _ _ _ (hnm 'k' (by decide) (by decide))
    have hseg : containsSub (natRepr a ++ chars "-" ++ natRepr b) (chars "segundos") = false :=
      containsSub_eq_false_of_head_notMem _ _ _ (hnm 's' (by decide) (by decide))
    have hmin : containsSub (natRepr a ++ chars "-" ++ natRepr b) (chars "min") = false :=
      containsSub_eq_false_of_head_notMem _ _ _ (hnm 'm' (by decide) (by decide))
    have hdash : containsSub (natRepr a ++ chars "-" ++ natRepr b) (chars "-") = true :=
      containsSub_append_mid _ _ _
    have hsplit : splitOnL (natRepr a ++ chars "-" ++ natRepr b) (chars "-") =
        [natRepr a, natRepr b] := by
      have he : natRepr a ++ chars "-" ++ natRepr b = natRepr a ++ '-' :: natRepr b := by
        simp [chars]
      rw [he, show chars "-" = ['-'] from rfl]
      exact splitOnL_single_pair '-' _ _ (notMem_dash_natRepr a) (notMem_dash_natRepr b)
    have hspace : containsSub (natRepr b) (chars " ") = false :=
      containsSub_natRepr_false b ' ' [] (by decide)
    unfold getGeneralProgression
    rw [if_neg (by simp only [hany, not_true, not_false_iff]),
      if_neg (by simp only [hkm, hseg, hmin]; simp),
      if_pos (by simp only [hdash])]
    simp only [hsplit, List.getD_cons_zero, List.getD_cons_succ, trimL_natRepr,
      parseNatL_natRepr]
    rw [if_neg (by simp only [hspace]; simp)]
  · intro a
    have hany : (natRepr a).any isDigitC = true := any_isDigit_natRepr a
    have hkm : containsSub (natRepr a) (chars "km") = false :=
      containsSub_natRepr_false a 'k' _ (by decide)
    have hseg : containsSub (natRepr a) (chars "segundos") = false :=
      containsSub_natRepr_false a 's' _ (by decide)
    have hmin : containsSub (natRepr a) (chars "min") = false :=
      containsSub_natRepr_false a 'm' _ (by decide)
    have hdash : containsSub (natRepr a) (chars "-") = false :=
      containsSub_natRepr_false a '-' [] (by decide)
    have hspace : containsSub (natRepr a) (chars " ") = false :=
      containsSub_natRepr_false a ' ' [] (by decide)
    unfold getGeneralProgression
    rw [if_neg (by simp [hany]), if_neg (by simp [hkm, hseg, hmin]),
      if_neg (by simp [hdash])]
    simp only [trimL_natRepr]
    rw [if_neg (by simp [hspace])]
    simp [parseNatL_natRepr]

/-- Witness for C6 at level 3 on base reps `8-10` (via the range clause with
`a = 8`, `b = 10`). -/
theorem spec_C6_witness :
    ([] : Str).any isDigitC = false ∧
    getGeneralProgression 3 (natRepr 8 ++ chars "-" ++ natRepr 10) =
      natRepr 12 ++ chars "-" ++ natRepr 14 :=
  ⟨by decide, (spec_C6_reps_progression 3).2.1 8 10⟩

/-! ### Lemmas about decimal lengths and zero padding -/

theorem natVal_natRepr (n : Nat) : natVal (natRepr n) = n := by
  unfold natRepr natDigits
  rw [natVal_map_digitCharOf _ (natDigitsF_lt n n le_rfl), natDigitsF_val n n le_rfl 0]
  simp

theorem natDigitsF_of_lt (fuel n : Nat) (h : n < 10) : natDigitsF fuel n = [n] := by
  cases fuel <;> simp [natDigitsF, h]

theorem natDigitsF_step (fuel n : Nat) (hf : 1 ≤ fuel) (h : ¬ n < 10) :
    natDigitsF fuel n = natDigitsF (fuel - 1) (n / 10) ++ [n % 10] := by
  cases fuel with
  | zero => omega
  | succ f => simp [natDigitsF, h]

theorem natDigitsF_len2 (fuel n : Nat) (h1 : 10 ≤ n) (h2 : n < 100) (hf : 1 ≤ fuel) :
    (natDigitsF fuel n).length = 2 := by
  rw [natDigitsF_step fuel n hf (by omega), natDigitsF_of_lt _ _ (by omega)]
  simp

theorem natDigitsF_len3 (fuel n : Nat) (h1 : 100 ≤ n) (h2 : n < 1000) (hf : 2 ≤ fuel) :
    (natDigitsF fuel n).length = 3 := by
  rw [natDigitsF_step fuel n (by omega) (by omega)]
  rw [List.length_append]
  rw [natDigitsF_len2 (fuel - 1) (n / 10) (by omega) (by omega) (by omega)]
  simp

theorem natDigitsF_len4 (fuel n : Nat) (h1 : 1000 ≤ n) (h2 : n < 10000) (hf : 3 ≤ fuel) :
    (natDigitsF fuel n).length = 4 := by
  rw [natDigitsF_step fuel n (by omega) (by omega)]
  rw [List.length_append]
  rw [natDigitsF_len3 (fuel - 1) (n / 10) (by omega) (by omega) (by omega)]
  simp

theorem natRepr_length_len1 {n : Nat} (h : n < 10) : (natRepr n).length = 1 := by
  unfold natRepr natDigits
  rw [natDigitsF_of_lt _ _ h]
  simp

theorem natRepr_length_len2 {n : Nat} (h1 : 10 ≤ n) (h2 : n < 100) :
    (natRepr n).length = 2 := by
  unfold natRepr natDigits
  rw [List.length_map, natDigitsF_len2 n n h1 h2 (by omega)]

theorem natRepr_length_len3 {n : Nat} (h1 : 100 ≤ n) (h2 : n < 1000) :
    (natRepr n).length = 3 := by
  unfold natRepr natDigits
  rw [List.length_map, natDigitsF_len3 n n h1 h2 (by omega)]

theorem natRepr_length_len4 {n : Nat} (h1 : 1000 ≤ n) (h2 : n < 10000) :
    (natRepr n).length = 4 := by
  unfold natRepr natDigits
  rw [List.length_map, natDigitsF_len4 n n h1 h2 (by omega)]

theorem mem_pad2_isDigit (n : Nat) : ∀ c ∈ pad2 n, isDigitC c = true := by
  intro c hc
  unfold pad2 at hc
  by_cases h : n < 10
  · rw [if_pos h] at hc
    rcases List.mem_append.mp hc with hm | hm
    · have : c = '0' := by simpa [chars] using hm
      subst this; decide
    · exact mem_natRepr_isDigit n c hm
  · rw [if_neg h] at hc
    exact mem_natRepr_isDigit n c hc

theorem mem_pad4_isDigit (n : Nat) : ∀ c ∈ pad4 n, isDigitC c = true := by
  intro c hc
  unfold pad4 at hc
  split_ifs at hc <;>
    first
    | exact mem_natRepr_isDigit n c hc
    | (rcases List.mem_append.mp hc with hm | hm
       · have : c = '0' := by simpa [chars] using hm
         subst this; decide
       · exact mem_natRepr_isDigit n c hm)

theorem notMem_dash_pad2 (n : Nat) : ¬ '-' ∈ pad2 n := by
  intro hm
  have := mem_pad2_isDigit n '-' hm
  simp [isDigitC] at this

theorem notMem_dash_pad4 (n : Nat) : ¬ '-' ∈ pad4 n := by
  intro hm
  have := mem_pad4_isDigit n '-' hm
  simp [isDigitC] at this

theorem pad2_length {n : Nat} (h : n < 100) : (pad2 n).length = 2 := by
  unfold pad2
  by_cases h1 : n < 10
  · rw [if_pos h1]
    simp [chars, natRepr_length_len1 h1]
  · rw [if_neg h1, natRepr_length_len2 (by omega) h]

theorem pad4_length {n : Nat} (h : n < 10000) : (pad4 n).length = 4 := by
  unfold pad4
  by_cases h1 : n < 10
  · rw [if_pos h1]; simp [chars, natRepr_length_len1 h1]
  · rw [if_neg h1]
    by_cases h2 : n < 100
    · rw [if_pos h2]; simp [chars, natRepr_length_len2 (by omega) h2]
    · rw [if_neg h2]
      by_cases h3 : n < 1000
      · rw [if_pos h3]; simp [chars, natRepr_length_len3 (by omega) h3]
      · rw [if_neg h3, natRepr_length_len4 (by omega) h]

theorem natVal_cons_zero (s : Str) : natVal ('0' :: s) = natVal s := by
  unfold natVal
  simp [digitVal]

theorem natVal_pad2 {n : Nat} : natVal (pad2 n) = n := by
  unfold pad2
  by_cases h : n < 10
  · rw [if_pos h]
    show natVal ('0' :: natRepr n) = n
    rw [natVal_cons_zero, natVal_natRepr]
  · rw [if_neg h, natVal_natRepr]

theorem natVal_pad4 {n : Nat} : natVal (pad4 n) = n := by
  unfold pad4
  by_cases h1 : n < 10
  · rw [if_pos h1]
    show natVal ('0' :: '0' :: '0' :: natRepr n) = n
    rw [natVal_cons_zero, natVal_cons_zero, natVal_cons_zero, natVal_natRepr]
  · rw [if_neg h1]
    by_cases h2 : n < 100
    · rw [if_pos h2]
      show natVal ('0' :: '0' :: natRepr n) = n
      rw [natVal_cons_zero, natVal_cons_zero, natVal_natRepr]
    · rw [if_neg h2]
      by_cases h3 : n < 1000
      · rw [if_pos h3]
        show natVal ('0' :: natRepr n) = n
        rw [natVal_cons_zero, natVal_natRepr]
      · rw [if_neg h3, natVal_natRepr]

theorem daysInMonth_le_31 (y m : Nat) : daysInMonth y m ≤ 31 := by
  unfold daysInMonth
  split_ifs <;> omega

/-- Formatting a valid date and parsing it back is the identity, mirroring
the `strftime`/`strptime` coherence the source relies on. -/
theorem parseDateYMD_formatCivil (c : Civil) (h : validCivil c) :
    parseDateYMD (formatCivil c) = some c := by
  obtain ⟨hy1, hy2, hm1, hm2, hd1, hd2⟩ := h
  have hm100 : c.m < 100 := by omega
  have hd100 : c.d < 100 := by
    have := daysInMonth_le_31 c.y c.m
    omega
  have hshape : formatCivil c = pad4 c.y ++ '-' :: (pad2 c.m ++ '-' :: pad2 c.d) := by
    simp [formatCivil, chars]
  unfold parseDateYMD
  rw [hshape, show chars "-" = ['-'] from rfl,
    splitOnL_single_triple '-' _ _ _ (notMem_dash_pad4 c.y) (notMem_dash_pad2 c.m)
      (notMem_dash_pad2 c.d)]
  have hlen4 : (pad4 c.y).length = 4 := pad4_length (by omega)
  have hlenm : (pad2 c.m).length = 2 := pad2_length hm100
  have hlend : (pad2 c.d).length = 2 := pad2_length hd100
  have hdig4 : (pad4 c.y).all isDigitC = true := List.all_eq_true.mpr (mem_pad4_isDigit c.y)
  have hdigm : (pad2 c.m).all isDigitC = true := List.all_eq_true.mpr (mem_pad2_isDigit c.m)
  have hdigd : (pad2 c.d).all isDigitC = true := List.all_eq_true.mpr (mem_pad2_isDigit c.d)
  have hv : validCivil c := ⟨hy1, hy2, hm1, hm2, hd1, hd2⟩
  simp only [hlen4, hlenm, hlend, hdig4, hdigm, hdigd, natVal_pad4, natVal_pad2]
  simp [hv]

theorem validCivil_of_parseDateDMY {s : Str} {c : Civil} (h : parseDateDMY s = some c) :
    validCivil c := by
  unfold parseDateDMY at h
  split at h
  · split_ifs at h with h1
    · simp only [] at h
      split_ifs at h with h2
      rw [Option.some_inj] at h
      subst h
      exact h2
  · exact absurd h (by simp)

/-! ### Claim C9: setting the program start date -/

/-- C9: `set_program_start_date` accepts a `DD/MM/YYYY` display date (storing
the converted internal `YYYY-MM-DD` form) and a `YYYY-MM-DD` date (stored
verbatim), in both cases rebuilding the full 20-week calendar mapping from
the parsed date and reporting success; an input neither parser accepts is
rejected with the whole progress state — in particular `program_start_date`
and `calendar_mapping` — left unchanged. -/
theorem spec_C9_start_date (pd : ProgressData) (s : Str) :
    (∀ c, containsSub s (chars "/") = true → parseDateDMY s = some c →
      setProgramStartDate s pd =
        (true, { pd with program_start_date := some (formatCivil c),
                         calendar_mapping := freshMapping (toOrdinal c) })) ∧
    (∀ c, containsSub s (chars "/") = false → parseDateYMD s = some c →
      setProgramStartDate s pd =
        (true, { pd with program_start_date := some s,
                         calendar_mapping := freshMapping (toOrdinal c) })) ∧
    (containsSub s (chars "/") = true ∧ parseDateDMY s = none ∨
        containsSub s (chars "/") = false ∧ parseDateYMD s = none →
      setProgramStartDate s pd = (false, pd)) ∧
    ((setProgramStartDate s pd).1 = false → (setProgramStartDate s pd).2 = pd) := by
  refine ⟨?_, ?_, ?_, ?_⟩
  · intro c h1 h2
    unfold setProgramStartDate
    rw [if_pos (by simp [h1]), h2]
    unfold updateCalendarMapping
    simp only [parseDateYMD_formatCivil c (validCivil_of_parseDateDMY h2)]
  · intro c h1 h2
    unfold setProgramStartDate
    rw [if_neg (by simp [h1]), h2]
    unfold updateCalendarMapping
    simp only [h2]
  · intro h
    rcases h with ⟨h1, h2⟩ | ⟨h1, h2⟩
    · unfold setProgramStartDate
      rw [if_pos (by simp [h1]), h2]
    · unfold setProgramStartDate
      rw [if_neg (by simp [h1]), h2]
  · intro h
    unfold setProgramStartDate at h ⊢
    by_cases h1 : containsSub s (chars "/") = true
    · rw [if_pos (by simp [h1])] at h ⊢
      cases hp : parseDateDMY s with
      | some c => rw [hp] at h; simp at h
      | none => rfl
    · rw [if_neg (by simp [h1])] at h ⊢
      cases hp : parseDateYMD s with
      | some c => rw [hp] at h; simp at h
      | none => rfl

/-- Witness for C9: the display date `14/10/2025` is accepted and converted,
and the unparseable `banana` is rejected without touching the state. -/
theorem spec_C9_witness :
    containsSub (chars "14/10/2025") (chars "/") = true ∧
    parseDateDMY (chars "14/10/2025") = some ⟨2025, 10, 14⟩ ∧
    setProgramStartDate (chars "14/10/2025") emptyPd =
      (true, ⟨[], [], [], 0, some (formatCivil ⟨2025, 10, 14⟩),
        freshMapping (toOrdinal ⟨2025, 10, 14⟩)⟩) ∧
    setProgramStartDate (chars "banana") emptyPd = (false, emptyPd) :=
  ⟨by decide, by decide,
   (spec_C9_start_date emptyPd (chars "14/10/2025")).1 ⟨2025, 10, 14⟩ (by decide) (by decide),
   (spec_C9_start_date emptyPd (chars "banana")).2.2.1 (Or.inr ⟨by decide, by decide⟩)⟩

/-! ### Lemmas about the calendar mapping -/

theorem alGet_append {α β : Type} [DecidableEq α] (l1 l2 : List (α × β)) (k : α) :
    alGet (l1 ++ l2) k =
      match alGet l1 k with
      | some v => some v
      | none => alGet l2 k := by
  induction l1 with
  | nil => rfl
  | cons kv t ih =>
    obtain ⟨k0, v0⟩ := kv
    by_cases h : k = k0 <;> simp [alGet, h, ih]

theorem alGet_eq_none_of_forall {α β : Type} [DecidableEq α] (l : List (α × β)) (k : α)
    (h : ∀ kv ∈ l, ¬ k = kv.1) : alGet l k = none := by
  induction l with
  | nil => rfl
  | cons kv t ih =>
    obtain ⟨k0, v0⟩ := kv
    simp only [alGet, if_neg (h (k0, v0) (by simp))]
    exact ih (fun kv hm => h kv (by simp [hm]))

theorem alGet_range_map_none {β : Type} (key : Nat → MapKey)
    (hinj : Function.Injective key) (f : Nat → β) (n w : Nat) (h : n < w) :
    alGet ((List.range n).map (fun i => (key (i + 1), f i))) (key w) = none := by
  apply alGet_eq_none_of_forall
  intro kv hm
  rcases List.mem_map.mp hm with ⟨i, hi, rfl⟩
  intro hk
  have := hinj hk
  simp only [List.mem_range] at hi
  omega

theorem alGet_range_map {β : Type} (key : Nat → MapKey)
    (hinj : Function.Injective key) (f : Nat → β) (n w : Nat) (h1 : 1 ≤ w) (h2 : w ≤ n) :
    alGet ((List.range n).map (fun i => (key (i + 1), f i))) (key w) = some (f (w - 1)) := by
  induction n with
  | zero => omega
  | succ n ih =>
    rw [List.range_succ, List.map_append, alGet_append]
    by_cases hw : w ≤ n
    · rw [ih hw]
    · have hwn : w = n + 1 := by omega
      rw [alGet_range_map_none key hinj f n w (by omega)]
      subst hwn
      simp [alGet]

theorem ofInt_injective : Function.Injective MapKey.ofInt := by
  intro a b h
  cases h
  rfl

theorem ofStr_natRepr_injective : Function.Injective (fun n => MapKey.ofStr (natRepr n)) := by
  intro a b h
  simp only [MapKey.ofStr.injEq] at h
  exact natRepr_injective h

/-- Entry of the fresh mapping for week `w`. -/
def freshEntry (sd w : Nat) : WeekEntry :=
  ⟨sd + 7 * (w - 1), sd + 7 * (w - 1) + 6, (List.range 7).map (fun j => sd + 7 * (w - 1) + j)⟩

theorem alGet_freshMapping (sd w : Nat) (h1 : 1 ≤ w) (h2 : w ≤ 20) :
    alGet (freshMapping sd) (MapKey.ofInt w) = some (freshEntry sd w) := by
  unfold freshMapping
  rw [alGet_range_map MapKey.ofInt ofInt_injective _ 20 w h1 h2]
  rfl

theorem reloadKeys_freshMapping (sd : Nat) :
    reloadKeys (freshMapping sd) =
      (List.range 20).map (fun i =>
        (MapKey.ofStr (natRepr (i + 1)),
         (⟨sd + 7 * i, sd + 7 * i + 6, (List.range 7).map (fun j => sd + 7 * i + j)⟩ :
           WeekEntry))) := by
  unfold reloadKeys freshMapping
  rw [List.map_map]
  rfl

theorem alGet_reload_freshMapping (sd w : Nat) (h1 : 1 ≤ w) (h2 : w ≤ 20) :
    alGet (reloadKeys (freshMapping sd)) (MapKey.ofStr (natRepr w)) =
      some (freshEntry sd w) := by
  rw [reloadKeys_freshMapping]
  rw [show (MapKey.ofStr (natRepr w)) = (fun n => MapKey.ofStr (natRepr n)) w from rfl]
  rw [alGet_range_map _ ofStr_natRepr_injective _ 20 w h1 h2]
  rfl

theorem alGet_freshMapping_strKey (sd : Nat) (t : Str) :
    alGet (freshMapping sd) (MapKey.ofStr t) = none := by
  apply alGet_eq_none_of_forall
  intro kv hm
  rcases List.mem_map.mp hm with ⟨i, _, rfl⟩
  simp

theorem toOrdinal_pos (c : Civil) (h : validCivil c) : 1 ≤ toOrdinal c := by
  obtain ⟨hy1, _, _, _, hd1, _⟩ := h
  unfold toOrdinal
  omega

theorem weekdayOf_le_self {n : Nat} (h : 1 ≤ n) : weekdayOf n ≤ n := by
  unfold weekdayOf
  omega

theorem weekdayOf_add_week (sd k : Nat) : weekdayOf (sd + 7 * k) = weekdayOf sd := by
  unfold weekdayOf
  omega

/-! ### Claim C7: calendar mapping coverage -/

/-- Fixture for C7/C10: the state right after recomputing the mapping from
the (non-Monday) start date 2025-10-14, still holding integer keys. -/
def pdTue : ProgressData :=
  updateCalendarMapping { emptyPd with program_start_date := some (chars "2025-10-14") }

/-- Fixture for C7/C10: the same state after a JSON save/load round trip
(mapping keys become strings). -/
def pdTueReload : ProgressData :=
  { pdTue with calendar_mapping := reloadKeys pdTue.calendar_mapping }

/-- Counterexample for C7 as stated: with the configured start date
2025-10-14 (a Tuesday), the cached entry for week 1 starts on the Tuesday
itself — not Monday-first — and `get_week_dates` on the freshly recomputed
(integer-keyed) state returns Monday 2025-10-13 as `dates[0]`, not the
claimed `startDate + 7*(w-1)`. -/
theorem spec_C7_counterexample :
    pdTue.program_start_date = some (chars "2025-10-14") ∧
    (alGetD pdTue.calendar_mapping (MapKey.ofInt 1) ⟨0, 0, []⟩).dates.getD 0 0 = oct14 ∧
    weekdayOf ((alGetD pdTue.calendar_mapping (MapKey.ofInt 1) ⟨0, 0, []⟩).dates.getD 0 0) ≠ 0 ∧
    (getWeekDates pdTue oct15 1).dates.getD 0 0 = oct13 ∧
    (getWeekDates pdTue oct15 1).dates.getD 0 0 ≠ oct14 := by
  decide

/-- C7 (amended): after a recompute from a valid start date, the cached
mapping holds exactly 20 weeks; week `w`'s entry is the 7 consecutive dates
starting at `startDate + 7*(w-1)` — whose weekday equals the start date's
weekday, Monday-first only when the start date is a Monday — and
`get_week_dates` returns exactly that entry once the mapping is string-keyed
(after a persistence round trip). -/
theorem spec_C7_amended (c : Civil) (pd : ProgressData) (today w : Nat)
    (hc : validCivil c) (h1 : 1 ≤ w) (h2 : w ≤ 20) :
    (updateCalendarMapping
        { pd with program_start_date := some (formatCivil c) }).calendar_mapping =
      freshMapping (toOrdinal c) ∧
    (freshMapping (toOrdinal c)).length = 20 ∧
    alGet (freshMapping (toOrdinal c)) (MapKey.ofInt w) = some (freshEntry (toOrdinal c) w) ∧
    (freshEntry (toOrdinal c) w).dates =
      (List.range 7).map (fun j => toOrdinal c + 7 * (w - 1) + j) ∧
    (freshEntry (toOrdinal c) w).dates.length = 7 ∧
    getWeekDates
        { pd with program_start_date := some (formatCivil c),
                  calendar_mapping := reloadKeys (freshMapping (toOrdinal c)) } today w =
      freshEntry (toOrdinal c) w ∧
    weekdayOf (toOrdinal c + 7 * (w - 1)) = weekdayOf (toOrdinal c) := by
  refine ⟨?_, ?_, alGet_freshMapping _ _ h1 h2, rfl, ?_, ?_, weekdayOf_add_week _ _⟩
  · unfold updateCalendarMapping
    simp only [parseDateYMD_formatCivil c hc]
  · simp [freshMapping]
  · simp [freshEntry]
  · unfold getWeekDates
    simp only [alGet_reload_freshMapping (toOrdinal c) w h1 h2]

/-- Witness for C7's amended theorem at start date 2025-10-14 and week 3. -/
theorem spec_C7_witness :
    validCivil ⟨2025, 10, 14⟩ ∧
    getWeekDates
        { emptyPd with program_start_date := some (formatCivil ⟨2025, 10, 14⟩),
                       calendar_mapping := reloadKeys (freshMapping (toOrdinal ⟨2025, 10, 14⟩)) }
        oct15 3 =
      freshEntry (toOrdinal ⟨2025, 10, 14⟩) 3 :=
  ⟨by decide,
   (spec_C7_amended ⟨2025, 10, 14⟩ emptyPd oct15 3 (by decide) (by decide) (by decide)).2.2.2.2.2.1⟩

/-! ### Claim C10: agreement of the two `get_week_dates` paths -/

/-- Counterexample for C10 as stated: for the Tuesday start date 2025-10-14,
the string-keyed cached entry (week 1 starting on the Tuesday) differs from
the dynamically recomputed fallback (week 1 starting on Monday 2025-10-13),
so `get_week_dates` changes across a persistence round trip. -/
theorem spec_C10_counterexample :
    getWeekDates pdTueReload oct15 1 ≠ getWeekDates pdTue oct15 1 ∧
    (getWeekDates pdTueReload oct15 1).start_date = oct14 ∧
    (getWeekDates pdTue oct15 1).start_date = oct13 := by
  decide

/-- C10 (amended): for a valid start date, the cached (string-keyed) path
starts week `w` at `startDate + 7*(w-1)` while the dynamic fallback starts
it at the start date's Monday plus `7*(w-1)`; the two paths yield the same
entry exactly when the configured start date falls on a Monday. -/
theorem spec_C10_amended (c : Civil) (pd : ProgressData) (today w : Nat)
    (hc : validCivil c) (h1 : 1 ≤ w) (h2 : w ≤ 20) :
    getWeekDates
        { pd with program_start_date := some (formatCivil c),
                  calendar_mapping := reloadKeys (freshMapping (toOrdinal c)) } today w =
      freshEntry (toOrdinal c) w ∧
    getWeekDates
        { pd with program_start_date := some (formatCivil c),
                  calendar_mapping := freshMapping (toOrdinal c) } today w =
      freshEntry (toOrdinal c - weekdayOf (toOrdinal c)) w ∧
    (freshEntry (toOrdinal c) w = freshEntry (toOrdinal c - weekdayOf (toOrdinal c)) w ↔
      weekdayOf (toOrdinal c) = 0) := by
  refine ⟨?_, ?_, ?_⟩
  · unfold getWeekDates
    simp only [alGet_reload_freshMapping (toOrdinal c) w h1 h2]
  · unfold getWeekDates
    simp only [alGet_freshMapping_strKey, parseDateYMD_formatCivil c hc]
    rfl
  · constructor
    · intro h
      have hs : toOrdinal c + 7 * (w - 1) = toOrdinal c - weekdayOf (toOrdinal c) + 7 * (w - 1) := by
        have := congrArg WeekEntry.start_date h
        simpa [freshEntry] using this
      have hle : weekdayOf (toOrdinal c) ≤ toOrdinal c :=
        weekdayOf_le_self (toOrdinal_pos c hc)
      omega
    · intro h
      rw [h]
      simp

/-- Witness for C10's amended theorem at the Monday start date 2025-10-13:
the two paths agree. -/
theorem spec_C10_witness :
    validCivil ⟨2025, 10, 13⟩ ∧ weekdayOf (toOrdinal ⟨2025, 10, 13⟩) = 0 ∧
    (freshEntry (toOrdinal ⟨2025, 10, 13⟩) 2 =
      freshEntry (toOrdinal ⟨2025, 10, 13⟩ - weekdayOf (toOrdinal ⟨2025, 10, 13⟩)) 2) :=
  ⟨by decide, by decide,
   ((spec_C10_amended ⟨2025, 10, 13⟩ emptyPd oct15 2 (by decide) (by decide)
     (by decide)).2.2).mpr (by decide)⟩

/-! ### Claim C5: the streak walk -/

/-- Statistics of the day `i` days before today, as `calculate_current_streak`
computes them: week resolved by `get_week_number_for_date`, then the filtered
day statistics. -/
def pipelineStats (cfg : Config) (sessionWeek today : Nat) (pd : ProgressData)
    (i : Nat) : DayStats :=
  pcDayStatsFiltered cfg pd (today - i)
    (some (pcGetWeekNumberForDate cfg sessionWeek pd (today - i)).1) sessionWeek

/-- The day `i` days before today is a plan rest day. -/
def restAt (cfg : Config) (sessionWeek today : Nat) (pd : ProgressData) (i : Nat) : Bool :=
  (pipelineStats cfg sessionWeek today pd i).is_rest_day

/-- The day `i` days before today counts as trained for the streak:
`total > 0` and recomputed percentage at least 80. -/
def trainedAt (cfg : Config) (sessionWeek today : Nat) (pd : ProgressData) (i : Nat) : Bool :=
  decide (0 < (pipelineStats cfg sessionWeek today pd i).total ∧
    qLe (qOf 80) (pctOf (pipelineStats cfg sessionWeek today pd i).completed
      (pipelineStats cfg sessionWeek today pd i).total) = true)

/-- The walk of the specification sentence: for at most 60 days going
backward, a rest day is skipped, a trained day increments the streak, an
untrained today (offset 0) is skipped without breaking, and any other
untrained day stops the walk, returning the accumulated count. -/
def streakSpecGo (isRest isTrained : Nat → Bool) : Nat → Nat → Nat → Nat
  | 0, _, streak => streak
  | fuel + 1, i, streak =>
    if isRest i then streakSpecGo isRest isTrained fuel (i + 1) streak
    else if isTrained i then streakSpecGo isRest isTrained fuel (i + 1) (streak + 1)
    else if i = 0 then streakSpecGo isRest isTrained fuel (i + 1) streak
    else streak

/-- The specification walk over 60 days. -/
def streakSpec (isRest isTrained : Nat → Bool) : Nat := streakSpecGo isRest isTrained 60 0 0

theorem streakSpecGo_le (isRest isTrained : Nat → Bool) (fuel i streak : Nat) :
    streakSpecGo isRest isTrained fuel i streak ≤ streak + fuel := by
  induction fuel generalizing i streak with
  | zero => simp [streakSpecGo]
  | succ f ih =>
    unfold streakSpecGo
    by_cases h1 : isRest i
    · rw [if_pos h1]
      have h4 := ih (i + 1) streak
      omega
    · rw [if_neg h1]
      by_cases h2 : isTrained i
      · rw [if_pos h2]
        have h4 := ih (i + 1) (streak + 1)
        omega
      · rw [if_neg h2]
        by_cases h3 : i = 0
        · rw [if_pos h3]
          have h4 := ih (i + 1) streak
          omega
        · rw [if_neg h3]
          omega

theorem pcGwnfd_of_mem (cfg : Config) (sw : Nat) (pd : ProgressData) (d w : Nat)
    (h : alGet pd.exercise_weeks d = some w) :
    pcGetWeekNumberForDate cfg sw pd d = (w, pd) := by
  unfold pcGetWeekNumberForDate
  rw [h]

theorem calcStreakGo_eq_spec (cfg : Config) (sw today : Nat) (pd : ProgressData) :
    ∀ (fuel i streak : Nat),
    (∀ j, i ≤ j → j < i + fuel → (alGet pd.exercise_weeks (today - j)).isSome) →
    calcStreakGo cfg sw today fuel i streak pd =
      streakSpecGo (restAt cfg sw today pd) (trainedAt cfg sw today pd) fuel i streak := by
  intro fuel
  induction fuel with
  | zero => intro i streak _; rfl
  | succ f ih =>
    intro i streak hstab
    obtain ⟨w, hw⟩ := Option.isSome_iff_exists.mp (hstab i le_rfl (by omega))
    have hr : restAt cfg sw today pd i =
        (pcDayStatsFiltered cfg pd (today - i) (some w) sw).is_rest_day := by
      unfold restAt pipelineStats
      rw [pcGwnfd_of_mem cfg sw pd (today - i) w hw]
    have ht : trainedAt cfg sw today pd i =
        decide (0 < (pcDayStatsFiltered cfg pd (today - i) (some w) sw).total ∧
          qLe (qOf 80) (pctOf (pcDayStatsFiltered cfg pd (today - i) (some w) sw).completed
            (pcDayStatsFiltered cfg pd (today - i) (some w) sw).total) = true) := by
      unfold trainedAt pipelineStats
      rw [pcGwnfd_of_mem cfg sw pd (today - i) w hw]
    have hstab' : ∀ j, i + 1 ≤ j → j < i + 1 + f →
        (alGet pd.exercise_weeks (today - j)).isSome := by
      intro j hj1 hj2
      exact hstab j (by omega) (by omega)
    unfold calcStreakGo streakSpecGo
    rw [pcGwnfd_of_mem cfg sw pd (today - i) w hw]
    by_cases h1 : (pcDayStatsFiltered cfg pd (today - i) (some w) sw).is_rest_day
    · rw [if_pos h1, if_pos (show restAt cfg sw today pd i = true from by rw [hr]; exact h1)]
      exact ih (i + 1) streak hstab'
    · rw [if_neg h1,
        if_neg (show ¬ restAt cfg sw today pd i = true from by rw [hr]; exact h1)]
      by_cases h2 : 0 < (pcDayStatsFiltered cfg pd (today - i) (some w) sw).total ∧
          qLe (qOf 80) (pctOf (pcDayStatsFiltered cfg pd (today - i) (some w) sw).completed
            (pcDayStatsFiltered cfg pd (today - i) (some w) sw).total) = true
      · rw [if_pos h2, if_pos (show trainedAt cfg sw today pd i = true from by
          rw [ht]; exact decide_eq_true h2)]
        exact ih (i + 1) (streak + 1) hstab'
      · rw [if_neg h2, if_neg (show ¬ trainedAt cfg sw today pd i = true from by
          rw [ht]; simpa using h2)]
        by_cases h3 : i = 0
        · rw [if_pos h3, if_pos h3]
          exact ih (i + 1) streak hstab'
        · rw [if_neg h3, if_neg h3]

/-- C5: when every date of the 60-day window already has an explicit
`exercise_weeks` assignment (so week resolution is pure), the streak
computation equals the specification walk — rest days skipped, trained days
counted, an unfinished today skipped, a missed past day stopping the walk —
and is bounded by the 60-day window. -/
theorem spec_C5_streak (cfg : Config) (sw today : Nat) (pd : ProgressData)
    (hstab : ∀ i, i < 60 → (alGet pd.exercise_weeks (today - i)).isSome) :
    calcStreak cfg sw today pd =
      streakSpec (restAt cfg sw today pd) (trainedAt cfg sw today pd) ∧
    calcStreak cfg sw today pd ≤ 60 := by
  have heq : calcStreak cfg sw today pd =
      streakSpec (restAt cfg sw today pd) (trainedAt cfg sw today pd) :=
    calcStreakGo_eq_spec cfg sw today pd 60 0 0 (fun j _ hj => hstab j (by omega))
  exact ⟨heq, by rw [heq]; simpa using streakSpecGo_le _ _ 60 0 0⟩

/-- Configuration fixture for C5: week 1 trains chest (one exercise) on
Monday, Wednesday and Sunday; Tuesday (and the unlisted days) rest. -/
def cfgC5 : Config :=
  ⟨[(chars "semana1",
     [(chars "lunes", [chars "pecho"]),
      (chars "martes", []),
      (chars "miercoles", [chars "pecho"]),
      (chars "domingo", [chars "pecho"])])],
   [(chars "pecho", [mkEx "X"])]⟩

/-- Progress fixture for C5: the Monday and Wednesday workouts of the week of
2025-10-13 are fully logged, Sunday 2025-10-12 is not; all 60 window dates
carry explicit week assignments. -/
def pdC5 : ProgressData :=
  ⟨[(oct13, [(exId (chars "pecho") (chars "X") (chars "lunes") 1, true)]),
    (oct15, [(exId (chars "pecho") (chars "X") (chars "miercoles") 1, true)])],
   (List.range 60).map (fun i => (oct15 - i, 1)), [], 0, none, []⟩

/-- Witness for C5: as of Wednesday 2025-10-15 — trained Monday, rest
Tuesday, trained Wednesday, untrained Sunday before — the streak is 2. -/
theorem spec_C5_witness :
    (∀ i, i < 60 → (alGet pdC5.exercise_weeks (oct15 - i)).isSome) ∧
    trainedAt cfgC5 1 oct15 pdC5 0 = true ∧
    restAt cfgC5 1 oct15 pdC5 1 = true ∧
    trainedAt cfgC5 1 oct15 pdC5 2 = true ∧
    restAt cfgC5 1 oct15 pdC5 3 = false ∧
    trainedAt cfgC5 1 oct15 pdC5 3 = false ∧
    calcStreak cfgC5 1 oct15 pdC5 = 2 :=
  ⟨by decide, by decide, by decide, by decide, by decide, by decide,
   by
    rw [(spec_C5_streak cfgC5 1 oct15 pdC5 (by decide)).1]
    decide⟩

end Sudoraciones
